import Mathlib

/-!
# Project Management Hub (`app.js`): data store, router and views

A shallow embedding of the data layer of `app.js`: the document kept in
`localStorage`, the CRUD handlers, the hash router, the view computations and
import/export.  Handlers that read and write the store are functions from the
document they load to the document they save.  Platform services (the clock,
`confirm`, `JSON`, `Date` parsing, `FileReader`, `parseInt` on the text of an input
element) enter as arguments; numbers are IEEE doubles, and `window.location.hash`
reads back the assigned fragment as the URL parser serialises it.
-/

namespace ProjectHub

/-! ## JavaScript numbers -/

/-- A JavaScript number: `NaN`, the two infinities, or a finite value.  The finite
values are the rationals a double can hold; negative zero is not told apart from
zero. -/
inductive JSNumber where
  | nan
  | negInf
  | posInf
  | fin (q : ℚ)
  deriving DecidableEq

namespace JSNumber

/-- The number of an integer literal or of an integer produced by `parseInt`. -/
def ofInt (n : ℤ) : JSNumber := fin (n : ℚ)

/-- Truthiness of a number in a boolean context: `NaN` and zero are falsy. -/
def truthy : JSNumber → Bool
  | nan => false
  | fin q => decide (q ≠ 0)
  | _ => true

/-- The expression `a || b` on numbers. -/
def orElse (a b : JSNumber) : JSNumber := if a.truthy then a else b

/-- The comparison `a < b`; any comparison with `NaN` is false. -/
def lt : JSNumber → JSNumber → Bool
  | nan, _ => false
  | _, nan => false
  | negInf, negInf => false
  | negInf, _ => true
  | _, negInf => false
  | posInf, _ => false
  | fin _, posInf => true
  | fin a, fin b => decide (a < b)

/-- The comparison `a > b`. -/
def gt (a b : JSNumber) : Bool := lt b a

/-- The call `Math.min(a, b)`: `NaN` when either argument is, else the smaller. -/
def mathMin : JSNumber → JSNumber → JSNumber
  | nan, _ => nan
  | _, nan => nan
  | a, b => if lt b a then b else a

/-- Nearest natural number to `n / d`, a tie going to the even neighbour. -/
def roundHalfEven (n d : ℕ) : ℕ :=
  let f := n / d
  let r := n % d
  if 2 * r < d then f else if d < 2 * r then f + 1 else if f % 2 = 0 then f else f + 1

/-- Position of the leading binary digit of `n` (0 for `n < 2`), by halving. -/
def log2Fuel : ℕ → ℕ → ℕ
  | 0, _ => 0
  | fuel + 1, n => if n < 2 then 0 else log2Fuel fuel (n / 2) + 1

/-- The exponent `e` with `2 ^ e ≤ n / d < 2 ^ (e + 1)`, for positive `n` and `d`. -/
def floorLog2 (n d : ℕ) : ℤ :=
  let e : ℤ := (log2Fuel n n : ℤ) - (log2Fuel d d : ℤ)
  if d * 2 ^ e.toNat ≤ n * 2 ^ (-e).toNat then e else e - 1

/-- The double nearest to the exact value `n / d` (IEEE 754 binary64, round to
nearest, ties to even): 53 significant bits, exponents from -1022 (below that the
spacing stays `2 ^ -1074`), and an infinity once the rounded magnitude reaches
`2 ^ 1024`.  This is the rounding every arithmetic operator applies to its exact
result. -/
def roundFrac (n : ℤ) (d : ℕ) : JSNumber :=
  if n = 0 then fin 0 else
    let a := n.natAbs
    let k : ℤ := max (floorLog2 a d) (-1022) - 52
    let m := roundHalfEven (a * 2 ^ (-k).toNat) (d * 2 ^ k.toNat)
    if 971 ≤ k ∧ 2 ^ (1024 - k).toNat ≤ m then
      (if n < 0 then negInf else posInf)
    else fin (mkRat (n.sign * ((m * 2 ^ k.toNat : ℕ) : ℤ)) (2 ^ (-k).toNat))

/-- The quotient `a / b`.  A zero divisor gives `NaN` for `0 / 0` and otherwise an
infinity with the sign of the dividend. -/
def div : JSNumber → JSNumber → JSNumber
  | nan, _ => nan
  | _, nan => nan
  | fin a, fin b =>
    if b = 0 then (if a = 0 then nan else if a < 0 then negInf else posInf)
    else roundFrac (a.num * b.den * b.num.sign) (a.den * b.num.natAbs)
  | fin _, _ => fin 0
  | posInf, fin b => if b < 0 then negInf else posInf
  | negInf, fin b => if b < 0 then posInf else negInf
  | _, _ => nan

/-- The product `a * b`. -/
def mul : JSNumber → JSNumber → JSNumber
  | nan, _ => nan
  | _, nan => nan
  | fin a, fin b => roundFrac (a.num * b.num) (a.den * b.den)
  | fin a, posInf => if a = 0 then nan else if a < 0 then negInf else posInf
  | fin a, negInf => if a = 0 then nan else if a < 0 then posInf else negInf
  | posInf, fin b => if b = 0 then nan else if b < 0 then negInf else posInf
  | negInf, fin b => if b = 0 then nan else if b < 0 then posInf else negInf
  | posInf, posInf => posInf
  | negInf, negInf => posInf
  | _, _ => negInf

/-- The difference `a - b`. -/
def sub : JSNumber → JSNumber → JSNumber
  | nan, _ => nan
  | _, nan => nan
  | fin a, fin b => roundFrac (a.num * b.den - b.num * a.den) (a.den * b.den)
  | posInf, posInf => nan
  | negInf, negInf => nan
  | posInf, _ => posInf
  | negInf, _ => negInf
  | fin _, posInf => negInf
  | fin _, negInf => posInf

/-- The call `Math.round(x)`: the integer nearest to `x`, a tie going up, that is
`⌊x + 1/2⌋`; `NaN` and the infinities are returned as they are. -/
def mathRound : JSNumber → JSNumber
  | fin q => fin (((2 * q.num + q.den) / (2 * (q.den : ℤ)) : ℤ) : ℚ)
  | x => x

end JSNumber

/-! ## The document -/

/-- An attachment record as `filesToBase64` builds it. -/
structure Attachment where
  name : String
  type : String
  size : Nat
  data : String
  deriving DecidableEq

/-- A progress update of a project.  `attachments` is `none` when the stored
object has no such property (the code reads it as `update.attachments || []`). -/
structure Update where
  id : String
  text : String
  timestamp : String
  timeSpent : String
  attachments : Option (List Attachment)
  deriving DecidableEq

/-- A project with its embedded updates. -/
structure Project where
  id : String
  name : String
  description : String
  futureWork : String
  progress : JSNumber
  updates : List Update
  createdAt : String
  updatedAt : String
  deriving DecidableEq

/-- A course. -/
structure Course where
  id : String
  name : String
  platform : String
  link : String
  totalVideos : JSNumber
  completed : JSNumber
  createdAt : String
  updatedAt : String
  deriving DecidableEq

/-- The root document `{ projects, courses }` that `loadData` returns. -/
structure Document where
  projects : List Project
  courses : List Course
  deriving DecidableEq

/-- In-place mutation of the element that `Array.prototype.find` (or `findIndex`)
returns: the first element satisfying `p` is replaced by its image under `f`, and
nothing changes when there is none. -/
def updateFirst {α : Type} (p : α → Bool) (f : α → α) : List α → List α
  | [] => []
  | x :: xs => if p x then f x :: xs else x :: updateFirst p f xs

/-- The sample document `initializeData` builds on first run.  The three ids are
the strings `generateId` returns and the five timestamps are the ISO strings of
the clock readings it takes. -/
def sampleData (projectId updateId courseId : String)
    (updateTime projectCreated projectUpdated courseCreated courseUpdated : String) : Document :=
  { projects :=
      [{ id := projectId
         name := "Digital IC Design"
         description :=
           "Complete VLSI design flow from RTL to GDSII including synthesis, place and route"
         futureWork := "Implement advanced verification techniques and timing optimization"
         progress := JSNumber.ofInt 65
         updates :=
           [{ id := updateId
              text := "Completed RTL design phase and verified all modules using testbenches"
              timestamp := updateTime
              timeSpent := "3 hours"
              attachments := some [] }]
         createdAt := projectCreated
         updatedAt := projectUpdated }]
    courses :=
      [{ id := courseId
         name := "SystemVerilog for Verification"
         platform := "YouTube"
         link := "https://youtube.com"
         totalVideos := JSNumber.ofInt 50
         completed := JSNumber.ofInt 20
         createdAt := courseCreated
         updatedAt := courseUpdated }] }

/-- The sample document for one run of `initializeData` on 11 January 2024. -/
def seedDocument : Document :=
  sampleData "proj-1704931200000-k3x9q2m1z" "upd-1704931200000-a8d2f0p4c"
    "course-1704931200000-w7e5r1t6y"
    "2024-01-09T00:00:00.000Z" "2024-01-01T00:00:00.000Z" "2024-01-10T00:00:00.000Z"
    "2023-12-12T00:00:00.000Z" "2024-01-11T00:00:00.000Z"

/-- The time values `new Date(s).getTime()` of the ISO strings used in the examples
of this file; every other string is taken as an invalid date. -/
def sampleDateValue (s : String) : Option ℤ :=
  if s = "2023-12-12T00:00:00.000Z" then some 1702339200000
  else if s = "2024-01-01T00:00:00.000Z" then some 1704067200000
  else if s = "2024-01-09T00:00:00.000Z" then some 1704758400000
  else if s = "2024-01-10T00:00:00.000Z" then some 1704844800000
  else if s = "2024-01-11T00:00:00.000Z" then some 1704931200000
  else none

/-! ## Course progress (`updateCourseProgress`) -/

/-- The handler `updateCourseProgress(courseId, completed)`, as the document it
leaves in the store.  `completed` is the number `parseInt(completed)` yields for
the text of the input element and `now` is `new Date().toISOString()`.  When no
course has the id nothing is saved. -/
def updateCourseProgress (data : Document) (courseId : String) (completed : JSNumber)
    (now : String) : Document :=
  match data.courses.find? (fun c => c.id == courseId) with
  | some _ =>
    { data with
      courses := updateFirst (fun c => c.id == courseId)
        (fun course =>
          { course with
            completed := JSNumber.mathMin (completed.orElse (JSNumber.ofInt 0)) course.totalVideos
            updatedAt := now })
        data.courses }
  | none => data

/-- The two-sided clamp `max(0, min(input, totalVideos))` of the specification. -/
def clamp (input lo hi : ℤ) : ℤ := max lo (min input hi)

/-! ## Course table and dashboard percentages -/

/-- The `percentDone` of a row of the course table (`renderCoursesList`). -/
def percentDone (course : Course) : JSNumber :=
  if course.totalVideos.gt (JSNumber.ofInt 0) then
    JSNumber.mathRound
      (JSNumber.mul (JSNumber.div course.completed course.totalVideos) (JSNumber.ofInt 100))
  else JSNumber.ofInt 0

/-- The `percentLeft` of a row of the course table: `100 - percentDone`. -/
def percentLeft (course : Course) : JSNumber :=
  JSNumber.sub (JSNumber.ofInt 100) (percentDone course)

/-- One row of the course table. -/
structure CourseRow where
  index : Nat
  course : Course
  percentDone : JSNumber
  percentLeft : JSNumber
  deriving DecidableEq

/-- The rows `renderCoursesList` writes into the table body: the first ten courses
(`slice(0, 10)`), numbered from 1.  An empty list stands for the placeholder row. -/
def renderCoursesList (data : Document) : List CourseRow :=
  ((data.courses.take 10).enum).map
    (fun ic => ⟨ic.1 + 1, ic.2, percentDone ic.2, percentLeft ic.2⟩)

/-- The percentage the dashboard preview shows for a course (`renderDashboard`):
`Math.round((c.completed / c.totalVideos) * 100) || 0`. -/
def dashboardPercent (c : Course) : JSNumber :=
  (JSNumber.mathRound
    (JSNumber.mul (JSNumber.div c.completed c.totalVideos) (JSNumber.ofInt 100))).orElse
    (JSNumber.ofInt 0)

/-! ## The project form -/

/-- The values read from the project form.  `progress` is the number `parseInt`
yields for the text of the progress input. -/
structure ProjectForm where
  name : String
  description : String
  futureWork : String
  progress : JSNumber
  deriving DecidableEq

/-- The spread `{ ...project, ...projectData }` of the edit branch: the five keys
of `projectData` overwrite, every other key of the project is kept. -/
def mergeProject (project : Project) (form : ProjectForm) (now : String) : Project :=
  { project with
    name := form.name
    description := form.description
    futureWork := form.futureWork
    progress := form.progress
    updatedAt := now }

/-- The submit handler of the project form, as the document it saves.  `editId`
is the value of the hidden `edit-project-id` field (empty when a project is
created), `now` is `new Date().toISOString()` and `newId` is the string
`generateId('proj')` returns. -/
def submitProjectForm (data : Document) (editId : String) (form : ProjectForm)
    (now newId : String) : Document :=
  if editId ≠ "" then
    { data with
      projects := updateFirst (fun p => p.id == editId)
        (fun p => mergeProject p form now) data.projects }
  else
    { data with
      projects := data.projects ++
        [{ id := newId
           name := form.name
           description := form.description
           futureWork := form.futureWork
           progress := form.progress
           updatedAt := now
           updates := []
           createdAt := now }] }

/-! ## Project detail and its timeline -/

/-- The order `Array.prototype.sort` is asked for by the comparator
`(a, b) => new Date(b.timestamp) - new Date(a.timestamp)`: `a` may stand before `b`
when the comparator is not positive.  `dateValue` gives the time value of
`new Date(s)` in milliseconds, `none` for an invalid date; the difference is then
`NaN`, which `sort` treats as 0. -/
def timelineOrder (dateValue : String → Option ℤ) (a b : Update) : Prop :=
  match dateValue a.timestamp, dateValue b.timestamp with
  | some ta, some tb => tb - ta ≤ 0
  | _, _ => True

instance (dateValue : String → Option ℤ) : DecidableRel (timelineOrder dateValue) :=
  fun a b => by
    unfold timelineOrder
    cases dateValue a.timestamp <;> cases dateValue b.timestamp <;> infer_instance

/-- The call `updates.sort(comparator)`.  `Array.prototype.sort` is stable, so for
a comparator that is a consistent ordering its result is the one a stable
insertion sort gives. -/
def sortUpdates (dateValue : String → Option ℤ) (updates : List Update) : List Update :=
  List.insertionSort (timelineOrder dateValue) updates

/-- Both updates carry valid timestamps and that of `a` is not older than that of
`b`: the relation between an earlier and a later item of a timeline sorted by
timestamp descending. -/
def notOlder (dateValue : String → Option ℤ) (a b : Update) : Prop :=
  ∃ ta tb, dateValue a.timestamp = some ta ∧ dateValue b.timestamp = some tb ∧ tb ≤ ta

/-- A project with three updates stored in the order 9 January, 10 January,
1 January, as the update form leaves them when they are added in that order. -/
def timelineProject : Project :=
  { id := "proj-1704931200000-k3x9q2m1z"
    name := "Digital IC Design"
    description := "Complete VLSI design flow"
    futureWork := ""
    progress := JSNumber.ofInt 65
    updates :=
      [⟨"upd-1704931200000-a8d2f0p4c", "Synthesis", "2024-01-09T00:00:00.000Z", "3 hours", some []⟩,
       ⟨"upd-1704931200001-b7c3e1q5d", "Place and route", "2024-01-10T00:00:00.000Z", "", some []⟩,
       ⟨"upd-1704931200002-c6b4d2r6e", "RTL design", "2024-01-01T00:00:00.000Z", "", none⟩]
    createdAt := "2024-01-01T00:00:00.000Z"
    updatedAt := "2024-01-11T00:00:00.000Z" }

/-- A document holding `timelineProject` only. -/
def timelineDocument : Document := { projects := [timelineProject], courses := [] }

/-- What `renderProjectDetail` does: it either calls `navigateTo(hash)` and renders
nothing, or renders the header of a project and the items of its timeline. -/
inductive DetailOutcome where
  | redirect (hash : String)
  | page (project : Project) (timeline : List Update)
  deriving DecidableEq

/-- The function `renderProjectDetail(projectId)` on the loaded document.
`projectId` is `none` for `null` or `undefined`, which equals no project id.  With
no updates the timeline holds only a placeholder text, the empty list here. -/
def renderProjectDetail (dateValue : String → Option ℤ) (data : Document)
    (projectId : Option String) : DetailOutcome :=
  match data.projects.find? (fun p => some p.id == projectId) with
  | none => .redirect "#/projects"
  | some project =>
    if project.updates.length = 0 then .page project []
    else .page project (sortUpdates dateValue project.updates)

/-! ## Router -/

/-- The four view containers (`dashboard-view`, `projects-view`,
`project-detail-view`, `courses-view`). -/
inductive View where
  | dashboard
  | projects
  | projectDetail
  | courses
  deriving DecidableEq

/-- The call `s.startsWith(p)`. -/
def startsWith (s p : String) : Bool := p.data.isPrefixOf s.data

/-- Pieces of a character sequence between occurrences of `sep`; there is always
at least one piece. -/
def splitChars (sep : Char) : List Char → List (List Char)
  | [] => [[]]
  | c :: cs =>
    if c = sep then [] :: splitChars sep cs
    else
      match splitChars sep cs with
      | [] => [[c]]
      | piece :: pieces => (c :: piece) :: pieces

/-- The call `s.split(sep)` for a one-character separator. -/
def split (s : String) (sep : Char) : List String :=
  (splitChars sep s.data).map String.mk

/-- The dashboard as `renderDashboard` fills it: the two counters and the preview
of the first six projects and courses, each course with its percentage. -/
structure Dashboard where
  projectsCount : Nat
  coursesCount : Nat
  projectsPreview : List Project
  coursesPreview : List (Course × JSNumber)
  deriving DecidableEq

/-- The function `renderDashboard` on the loaded document. -/
def renderDashboard (data : Document) : Dashboard :=
  { projectsCount := data.projects.length
    coursesCount := data.courses.length
    projectsPreview := data.projects.take 6
    coursesPreview := (data.courses.take 6).map (fun c => (c, dashboardPercent c)) }

/-- The cards `renderProjectsList` writes: one per project, in stored order. -/
def renderProjectsList (data : Document) : List Project := data.projects

/-- What a call of `handleRouting` rendered. -/
inductive Rendered where
  | dashboard (d : Dashboard)
  | projectsList (cards : List Project)
  | projectDetail (o : DetailOutcome)
  | coursesList (rows : List CourseRow)
  deriving DecidableEq

/-- The browser state the router reads and writes: the string that
`window.location.hash` returns, the global `currentProjectId` (`none` for `null` or
`undefined`), and the views that carry the class `active`. -/
structure Browser where
  hash : String
  currentProjectId : Option String
  active : List View
  deriving DecidableEq

/-- The characters the URL parser drops from a value assigned to
`window.location.hash`: ASCII tab, line feed and carriage return. -/
def isTabOrNewline (c : Char) : Bool :=
  c.toNat = 0x09 || c.toNat = 0x0A || c.toNat = 0x0D

/-- The fragment percent-encode set of the URL Standard: the C0 controls and the
space, every code point above `~` (U+007E), and the double quote (U+0022), `<`
(U+003C), `>` (U+003E) and the grave accent (U+0060). -/
def inFragmentEncodeSet (c : Char) : Bool :=
  c.toNat ≤ 0x20 || 0x7E < c.toNat || c.toNat = 0x22 || c.toNat = 0x3C || c.toNat = 0x3E
    || c.toNat = 0x60

/-- The upper-case hexadecimal digit of a number below 16. -/
def hexDigit (n : Nat) : Char := Char.ofNat (if n < 10 then 48 + n else 55 + n)

/-- The UTF-8 bytes of a code point. -/
def utf8Bytes (n : Nat) : List Nat :=
  if n < 0x80 then [n]
  else if n < 0x800 then [0xC0 + n / 0x40, 0x80 + n % 0x40]
  else if n < 0x10000 then [0xE0 + n / 0x1000, 0x80 + n / 0x40 % 0x40, 0x80 + n % 0x40]
  else [0xF0 + n / 0x40000, 0x80 + n / 0x1000 % 0x40, 0x80 + n / 0x40 % 0x40, 0x80 + n % 0x40]

/-- The bytes written as `%XX` each. -/
def percentBytes : List Nat → List Char
  | [] => []
  | byte :: bytes => '%' :: hexDigit (byte / 16) :: hexDigit (byte % 16) :: percentBytes bytes

/-- UTF-8 percent-encoding of one character with the fragment percent-encode set:
a character of the set becomes its bytes as `%XX`, any other stays as it is. -/
def percentEncodeChar (c : Char) : List Char :=
  if inFragmentEncodeSet c then percentBytes (utf8Bytes c.toNat) else [c]

/-- The fragment the URL parser makes of an input: tabs and newlines are dropped
and every other character is percent-encoded with the fragment set. -/
def encodeFragment : List Char → List Char
  | [] => []
  | c :: cs =>
    if isTabOrNewline c then encodeFragment cs else percentEncodeChar c ++ encodeFragment cs

/-- The percent-encoded form of a string inside a fragment. -/
def percentEncode (s : String) : String := String.mk (encodeFragment s.data)

/-- What `window.location.hash` returns after the assignment
`window.location.hash = value`: one leading `#` of the value is dropped, the rest
is parsed into the fragment of the URL, and the getter returns `#` followed by the
fragment, or the empty string when the fragment is empty. -/
def assignedHash (value : String) : String :=
  let input := match value.data with
    | '#' :: rest => rest
    | cs => cs
  let fragment := encodeFragment input
  if fragment = [] then "" else String.mk ('#' :: fragment)

/-- The part of a string before its first `/`, all of it when it has none. -/
def firstSegment (s : String) : String :=
  String.mk (s.data.takeWhile (fun c => c != '/'))

/-- The function `navigateTo(hash)`: it assigns `window.location.hash`, which from
then on reads as the browser serialises the assigned fragment; the browser then
fires `hashchange`, which runs `handleRouting`. -/
def navigateTo (b : Browser) (hash : String) : Browser := { b with hash := assignedHash hash }

/-- The function `handleRouting` on the loaded document: the browser state it
leaves and what it rendered (`none` when it called no renderer).  It first takes
`active` off every view, then follows the first branch whose test holds. -/
def handleRouting (dateValue : String → Option ℤ) (data : Document) (b : Browser) :
    Browser × Option Rendered :=
  let hash := if b.hash = "" then "#/" else b.hash
  let hidden : Browser := { b with active := [] }
  if hash = "#/" ∨ hash = "" then
    ({ hidden with active := [View.dashboard] }, some (.dashboard (renderDashboard data)))
  else if hash = "#/projects" then
    ({ hidden with active := [View.projects] }, some (.projectsList (renderProjectsList data)))
  else if startsWith hash "#/project/" then
    let projectId := (split hash '/').get? 2
    let shown : Browser :=
      { hidden with currentProjectId := projectId, active := [View.projectDetail] }
    match renderProjectDetail dateValue data projectId with
    | .redirect target => (navigateTo shown target, some (.projectDetail (.redirect target)))
    | .page project timeline => (shown, some (.projectDetail (.page project timeline)))
  else if hash = "#/courses" then
    ({ hidden with active := [View.courses] }, some (.coursesList (renderCoursesList data)))
  else (hidden, none)

/-! ## The store, export and import -/

/-- A value that `JSON.parse` returns. -/
inductive JSValue where
  | null
  | bool (b : Bool)
  | number (n : JSNumber)
  | string (s : String)
  | array (items : List JSValue)
  | object (props : List (String × JSValue))

namespace JSValue

/-- Truthiness of a value; `none` stands for `undefined`. -/
def truthy : Option JSValue → Bool
  | none => false
  | some null => false
  | some (bool b) => b
  | some (number n) => n.truthy
  | some (string s) => decide (s ≠ "")
  | some (array _) => true
  | some (object _) => true

/-- The member access `v.key` for a key that no prototype defines, such as
`projects` and `courses`: on `null` it throws a `TypeError` (outer `none`), on an
object it is the own property of that name or `undefined` (inner `none`), and on
every other value it is `undefined`. -/
def member (v : JSValue) (key : String) : Option (Option JSValue) :=
  match v with
  | null => none
  | object props => some (props.lookup key)
  | _ => some none

/-- The value has an own property `key` holding an array. -/
def hasArray (v : JSValue) (key : String) : Prop :=
  ∃ items, v.member key = some (some (array items))

/-- The value holds nothing under `key`: reading `v.key` gives `undefined` (or
throws, for `null`). -/
def lacks (v : JSValue) (key : String) : Prop :=
  ∀ x, v.member key ≠ some (some x)

/-- The test `v.key` of the import handler does not pass: reading `v.key` gives a
falsy value (`undefined` for a missing property, `null`, `false`, `0`, `NaN` or the
empty string), or throws because `v` is `null`. -/
def falsyMember (v : JSValue) (key : String) : Prop :=
  ∀ x, v.member key = some x → truthy x = false

/-- Reading `v.key` gives a truthy value: an array, an object, `true`, a non-zero
number or a non-empty string. -/
def truthyMember (v : JSValue) (key : String) : Prop :=
  ∃ x, v.member key = some x ∧ truthy x = true

end JSValue

/-- The platform object `JSON`: `parse` (`none` when it throws a `SyntaxError`),
`stringify(v)` and `stringify(v, null, 2)`. -/
structure JSON where
  parse : String → Option JSValue
  stringify : JSValue → String
  stringifyIndented : JSValue → String

/-- The item kept under `STORAGE_KEY` in `localStorage`: `none` while
`getItem(STORAGE_KEY)` is `null`, else the stored text. -/
abbrev Storage := Option String

/-- The literal `{ projects: [], courses: [] }` that `loadData` falls back to. -/
def emptyDocument : JSValue :=
  .object [("projects", .array []), ("courses", .array [])]

/-- The function `loadData`: the parsed stored text, or the empty document when the
item is missing or is the empty string; `none` when `JSON.parse` throws. -/
def loadData (J : JSON) (storage : Storage) : Option JSValue :=
  match storage with
  | none => some emptyDocument
  | some text => if text = "" then some emptyDocument else J.parse text

/-- The function `saveData(data)`: one `setItem` that overwrites the item. -/
def saveData (J : JSON) (data : JSValue) : Storage := some (J.stringify data)

/-- The text `exportData` offers for download, `JSON.stringify(loadData(), null, 2)`;
`none` when `loadData` throws.  The function never writes to the store. -/
def exportData (J : JSON) (storage : Storage) : Option String :=
  (loadData J storage).map J.stringifyIndented

/-- The three messages the import handler can show. -/
inductive Alert where
  | importedSuccessfully
  | invalidDataFormat
  | errorImportingData
  deriving DecidableEq

/-- What the import handler leaves behind: the store, the message it showed, and
whether it went on to call `handleRouting`. -/
structure ImportOutcome where
  storage : Storage
  alert : Option Alert
  rerouted : Bool

/-- The `change` handler of the `import-file` input together with the `onload`
callback of its reader.  `file` is the text of `e.target.files[0]` (`none` when no
file was chosen) and `confirmed` is the answer to `confirm(...)`.  Inside the `try`
block a throwing `JSON.parse` or member access leads to the `catch` branch. -/
def importFile (J : JSON) (storage : Storage) (file : Option String) (confirmed : Bool) :
    ImportOutcome :=
  match file with
  | none => ⟨storage, none, false⟩
  | some text =>
    if !confirmed then ⟨storage, none, false⟩
    else
      match J.parse text with
      | none => ⟨storage, some .errorImportingData, false⟩
      | some importedData =>
        match importedData.member "projects" with
        | none => ⟨storage, some .errorImportingData, false⟩
        | some projects =>
          if JSValue.truthy projects then
            match importedData.member "courses" with
            | none => ⟨storage, some .errorImportingData, false⟩
            | some courses =>
              if JSValue.truthy courses then
                ⟨saveData J importedData, some .importedSuccessfully, true⟩
              else ⟨storage, some .invalidDataFormat, false⟩
          else ⟨storage, some .invalidDataFormat, false⟩

/-- A finite table of the platform's `JSON` on which the handlers can be run: it
reads the texts of the empty document (compact and indented), of `null`, of an
object with `projects` only, of an object whose `projects` is `null`, and of an
object whose `projects` is the number 1 and whose `courses` is the string `x`; it
writes the empty document and the last of these objects.  Every other text is
rejected and every other value is written as `null`; the examples below stay on
the listed texts and values. -/
def tableJSON : JSON where
  parse := fun text =>
    if text = "\x7b\"projects\":[],\"courses\":[]\x7d" then some emptyDocument
    else if text = "\x7b\n  \"projects\": [],\n  \"courses\": []\n\x7d" then some emptyDocument
    else if text = "\x7b\"projects\":[]\x7d" then some (.object [("projects", .array [])])
    else if text = "\x7b\"projects\":null,\"courses\":[]\x7d" then
      some (.object [("projects", .null), ("courses", .array [])])
    else if text = "\x7b\"projects\":1,\"courses\":\"x\"\x7d" then
      some (.object [("projects", .number (JSNumber.ofInt 1)), ("courses", .string "x")])
    else if text = "null" then some .null
    else none
  stringify := fun v =>
    match v with
    | .object [("projects", .array []), ("courses", .array [])] =>
      "\x7b\"projects\":[],\"courses\":[]\x7d"
    | .object [("projects", .number n), ("courses", .string "x")] =>
      if n = JSNumber.ofInt 1 then "\x7b\"projects\":1,\"courses\":\"x\"\x7d" else "null"
    | _ => "null"
  stringifyIndented := fun v =>
    match v with
    | .object [("projects", .array []), ("courses", .array [])] =>
      "\x7b\n  \"projects\": [],\n  \"courses\": []\n\x7d"
    | _ => "null"

/-! ## Attachments and the update form -/

/-- A file picked or dropped by the user, as the code reads it: its name, MIME
type, size, and the raw bytes behind it. -/
structure File where
  name : String
  type : String
  size : Nat
  bytes : List Nat
  deriving DecidableEq

/-- The loop of `filesToBase64`, entered with the records pushed so far.  Each file
is read in turn by `readAsDataURL` (`none` when the reader fires `error`); a failed
read rejects the promise and the records are lost, a successful one appends the
record of the file. -/
def filesToBase64Loop (readAsDataURL : File → Option String) :
    List Attachment → List File → Option (List Attachment)
  | results, [] => some results
  | results, file :: files =>
    match readAsDataURL file with
    | none => none
    | some base64 =>
      filesToBase64Loop readAsDataURL
        (results ++ [{ name := file.name, type := file.type, size := file.size, data := base64 }])
        files

/-- The function `filesToBase64(files)`: `none` when the promise it returns is
rejected, else the array it resolves to. -/
def filesToBase64 (readAsDataURL : File → Option String) (files : List File) :
    Option (List Attachment) :=
  filesToBase64Loop readAsDataURL [] files

/-- The values read from the update form.  `timestamp` is the text of the
`datetime-local` input. -/
structure UpdateForm where
  text : String
  timestamp : String
  timeSpent : String
  deriving DecidableEq

/-- The spread `{ ...update, ...updateData }` of the edit branch, after
`updateData.attachments` has been set to the existing attachments followed by the
new ones: `id` is kept, the four keys of `updateData` overwrite. -/
def mergeUpdate (update : Update) (form : UpdateForm) (timestamp : String)
    (attachments : List Attachment) : Update :=
  { update with
    text := form.text
    timestamp := timestamp
    timeSpent := form.timeSpent
    attachments := some (update.attachments.getD [] ++ attachments) }

/-- The submit handler of the update form, as the document it saves; `none` when it
ends without saving, because `filesToBase64` was rejected, because
`new Date(value).toISOString()` threw for the form's timestamp (`toISOString` is
`none` there), or because no project has the id `currentProjectId` and reading
`project.updates` threw.  `editId` is the value of the hidden `edit-update-id`
field, `now` is `new Date().toISOString()` and `newId` is the string
`generateId('upd')` returns. -/
def submitUpdateForm (readAsDataURL : File → Option String)
    (toISOString : String → Option String) (data : Document)
    (currentProjectId : Option String) (pendingFiles : List File) (editId : String)
    (form : UpdateForm) (now newId : String) : Option Document :=
  match filesToBase64 readAsDataURL pendingFiles with
  | none => none
  | some attachments =>
    match toISOString form.timestamp with
    | none => none
    | some timestamp =>
      match data.projects.find? (fun p => some p.id == currentProjectId) with
      | none => none
      | some _ =>
        some { data with
          projects := updateFirst (fun p => some p.id == currentProjectId)
            (fun project =>
              { project with
                updates :=
                  if editId ≠ "" then
                    updateFirst (fun u => u.id == editId)
                      (fun u => mergeUpdate u form timestamp attachments) project.updates
                  else
                    project.updates ++
                      [{ id := newId
                         text := form.text
                         timestamp := timestamp
                         timeSpent := form.timeSpent
                         attachments := some attachments }]
                updatedAt := now })
            data.projects }

/-- The function `removeExistingAttachment(index)`, as the document in the store
afterwards; `none` when no project has the id `currentProjectId` and reading
`project.updates` throws.  `updateId` is the value of the hidden `edit-update-id`
field.  When the update is found and has an attachments array, `splice(index, 1)`
takes out the attachment at `index`; otherwise nothing is saved. -/
def removeExistingAttachment (data : Document) (currentProjectId : Option String)
    (updateId : String) (index : Nat) : Option Document :=
  match data.projects.find? (fun p => some p.id == currentProjectId) with
  | none => none
  | some _ =>
    some { data with
      projects := updateFirst (fun p => some p.id == currentProjectId)
        (fun project =>
          { project with
            updates := updateFirst (fun u => u.id == updateId)
              (fun u => { u with attachments := u.attachments.map (fun l => l.eraseIdx index) })
              project.updates })
        data.projects }

/-- Read results of the files used in the examples of this file: two files whose
data URLs are given, every other file failing to read. -/
def sampleReadAsDataURL (file : File) : Option String :=
  if file.name = "notes.txt" then some "data:text/plain;base64,aGk="
  else if file.name = "plot.png" then some "data:image/png;base64,iVBORw=="
  else none

/-- The ISO strings `new Date(value).toISOString()` gives, in a UTC locale, for the
form dates used in the examples of this file; every other text counts as an
invalid date. -/
def sampleToISOString (value : String) : Option String :=
  if value = "2024-01-10T00:00" then some "2024-01-10T00:00:00.000Z"
  else if value = "2024-01-11T00:00" then some "2024-01-11T00:00:00.000Z"
  else none

/-- A document whose only project has one update that already carries the
attachment `plot.png`. -/
def attachmentDocument : Document :=
  { projects :=
      [{ timelineProject with
          updates :=
            [⟨"upd-1704931200000-a8d2f0p4c", "Synthesis", "2024-01-09T00:00:00.000Z", "3 hours",
              some [⟨"plot.png", "image/png", 4, "data:image/png;base64,iVBORw=="⟩]⟩] }]
    courses := [] }

/-! ## The course form and the deletions -/

/-- The values read from the course form.  `totalVideos` is the number `parseInt`
yields for the text of the `course-total` input. -/
structure CourseForm where
  name : String
  platform : String
  link : String
  totalVideos : JSNumber
  deriving DecidableEq

/-- The submit handler of the course form, as the document it saves. `newId` is the
string `generateId('course')` returns. -/
def submitCourseForm (data : Document) (form : CourseForm) (now newId : String) : Document :=
  { data with
    courses := data.courses ++
      [{ id := newId
         name := form.name
         platform := form.platform
         link := form.link
         totalVideos := form.totalVideos
         completed := JSNumber.ofInt 0
         createdAt := now
         updatedAt := now }] }

/-- The function `deleteUpdate(updateId)`, as the document in the store afterwards;
`none` when no project has the id `currentProjectId` and reading `project.updates`
throws.  `confirmed` is the answer to `confirm(...)`: on `false` the function
returns at once. -/
def deleteUpdate (data : Document) (currentProjectId : Option String) (updateId : String)
    (confirmed : Bool) (now : String) : Option Document :=
  if !confirmed then some data
  else
    match data.projects.find? (fun p => some p.id == currentProjectId) with
    | none => none
    | some _ =>
      some { data with
        projects := updateFirst (fun p => some p.id == currentProjectId)
          (fun project =>
            { project with
              updates := project.updates.filter (fun u => u.id != updateId)
              updatedAt := now })
          data.projects }

/-- The function `deleteCourse(courseId)`, as the document in the store afterwards.
`confirmed` is the answer to `confirm(...)`: on `false` the function returns at
once. -/
def deleteCourse (data : Document) (courseId : String) (confirmed : Bool) : Document :=
  if !confirmed then data
  else { data with courses := data.courses.filter (fun c => c.id != courseId) }

/-- The function `initializeData`, on the document found in the store (`none` when
`getItem` gives `null` or the empty string): an existing document is left as it is,
and only an empty store receives the sample document. -/
def initializeData (stored : Option Document) (projectId updateId courseId : String)
    (updateTime projectCreated projectUpdated courseCreated courseUpdated : String) : Document :=
  match stored with
  | some data => data
  | none =>
    sampleData projectId updateId courseId updateTime projectCreated projectUpdated
      courseCreated courseUpdated

/-! ## The handlers that write the store -/

/-- A user action that ends in `saveData`, with everything its handler reads from
the page and the platform.  These are all the call sites of `saveData` in `app.js`
apart from `initializeData`; `importDocument` stands for a successful import of the
document `imported`. -/
inductive Command where
  | submitProjectForm (editId : String) (form : ProjectForm) (now newId : String)
  | submitUpdateForm (readAsDataURL : File → Option String)
      (toISOString : String → Option String) (currentProjectId : Option String)
      (pendingFiles : List File) (editId : String) (form : UpdateForm) (now newId : String)
  | submitCourseForm (form : CourseForm) (now newId : String)
  | removeExistingAttachment (currentProjectId : Option String) (updateId : String)
      (index : Nat)
  | deleteUpdate (currentProjectId : Option String) (updateId : String) (confirmed : Bool)
      (now : String)
  | updateCourseProgress (courseId : String) (completed : JSNumber) (now : String)
  | deleteCourse (courseId : String) (confirmed : Bool)
  | importDocument (imported : Document)

/-- Whether the command is an import, which replaces the whole document. -/
def Command.isImport : Command → Bool
  | .importDocument _ => true
  | _ => false

/-- The document in the store after the handler of a command has run on `data`;
`none` when the handler throws before it saves. -/
def Command.run (data : Document) : Command → Option Document
  | .submitProjectForm editId form now newId =>
    some (ProjectHub.submitProjectForm data editId form now newId)
  | .submitUpdateForm readAsDataURL toISOString currentProjectId pendingFiles editId form now
      newId =>
    ProjectHub.submitUpdateForm readAsDataURL toISOString data currentProjectId pendingFiles
      editId form now newId
  | .submitCourseForm form now newId => some (ProjectHub.submitCourseForm data form now newId)
  | .removeExistingAttachment currentProjectId updateId index =>
    ProjectHub.removeExistingAttachment data currentProjectId updateId index
  | .deleteUpdate currentProjectId updateId confirmed now =>
    ProjectHub.deleteUpdate data currentProjectId updateId confirmed now
  | .updateCourseProgress courseId completed now =>
    some (ProjectHub.updateCourseProgress data courseId completed now)
  | .deleteCourse courseId confirmed => some (ProjectHub.deleteCourse data courseId confirmed)
  | .importDocument imported => some imported

/-! # Properties -/

/-! ## Helper lemmas -/

theorem find?_updateFirst {α : Type} (p : α → Bool) (f : α → α)
    (hf : ∀ x, p x = true → p (f x) = true) (l : List α) :
    (updateFirst p f l).find? p = (l.find? p).map f := by
  induction l with
  | nil => rfl
  | cons x xs ih =>
    by_cases hx : p x = true
    · simp [updateFirst, hx, List.find?, hf x hx]
    · simp [updateFirst, hx, List.find?, ih]

/-- The fuel `n` is enough for `log2Fuel` to reach the leading binary digit of `n`. -/
theorem JSNumber.log2Fuel_spec (fuel n : ℕ) (hfuel : n ≤ fuel) (hn : n ≠ 0) :
    2 ^ JSNumber.log2Fuel fuel n ≤ n ∧ n < 2 ^ (JSNumber.log2Fuel fuel n + 1) := by
  induction fuel generalizing n with
  | zero => omega
  | succ fuel ih =>
    unfold JSNumber.log2Fuel
    by_cases h2 : n < 2
    · rw [if_pos h2]
      constructor <;> simp <;> omega
    · rw [if_neg h2]
      have hhalf : n / 2 ≤ fuel := by omega
      have hne : n / 2 ≠ 0 := by omega
      obtain ⟨h1, h3⟩ := ih (n / 2) hhalf hne
      constructor
      · rw [pow_succ]; omega
      · rw [pow_succ]; omega

/-! ### Bounds of the double arithmetic -/

namespace JSNumber

/-- Rounding to the nearest natural number does not pass a natural upper bound. -/
theorem roundHalfEven_le (x d N : ℕ) (hd : 0 < d) (h : x ≤ N * d) : roundHalfEven x d ≤ N := by
  have hf : x / d ≤ N := Nat.div_le_of_le_mul (by rw [Nat.mul_comm]; exact h)
  have hdm := Nat.div_add_mod x d
  unfold roundHalfEven
  simp only
  by_cases h1 : 2 * (x % d) < d
  · rw [if_pos h1]; exact hf
  · rw [if_neg h1]
    have hlt : x / d < N := by
      rcases Nat.lt_or_ge (x / d) N with h2 | h2
      · exact h2
      · exfalso
        have heq : x / d = N := le_antisymm hf h2
        rw [heq] at hdm
        have : x % d = 0 := by
          have : d * N + x % d ≤ N * d := by rw [hdm]; exact h
          have h3 : d * N = N * d := Nat.mul_comm _ _
          omega
        omega
    split_ifs <;> omega

/-- The exponent `floorLog2 n d` is a lower bound: `2 ^ e ≤ n / d`, written without
division. -/
theorem floorLog2_le (n d : ℕ) (hn : 0 < n) (hd : 0 < d) :
    d * 2 ^ (floorLog2 n d).toNat ≤ n * 2 ^ (-(floorLog2 n d)).toNat := by
  obtain ⟨hn1, _⟩ := log2Fuel_spec n n le_rfl (Nat.pos_iff_ne_zero.mp hn)
  obtain ⟨_, hd2⟩ := log2Fuel_spec d d le_rfl (Nat.pos_iff_ne_zero.mp hd)
  unfold floorLog2
  simp only
  generalize log2Fuel n n = a at *
  generalize log2Fuel d d = b at *
  split_ifs with hc
  · exact hc
  · rcases Nat.lt_or_ge b a with hab | hab
    · have e1 : ((a : ℤ) - b - 1).toNat = a - b - 1 := by omega
      have e2 : (-((a : ℤ) - b - 1)).toNat = 0 := by omega
      rw [e1, e2, pow_zero, Nat.mul_one]
      have h3 : d * 2 ^ (a - b - 1) < 2 ^ (b + 1) * 2 ^ (a - b - 1) :=
        Nat.mul_lt_mul_of_pos_right hd2 (by positivity)
      rw [← pow_add] at h3
      have e3 : b + 1 + (a - b - 1) = a := by omega
      rw [e3] at h3
      omega
    · have e1 : ((a : ℤ) - b - 1).toNat = 0 := by omega
      have e2 : (-((a : ℤ) - b - 1)).toNat = b + 1 - a := by omega
      rw [e1, e2, pow_zero, Nat.mul_one]
      have h3 : 2 ^ a * 2 ^ (b + 1 - a) ≤ n * 2 ^ (b + 1 - a) :=
        Nat.mul_le_mul_right _ hn1
      rw [← pow_add] at h3
      have e3 : a + (b + 1 - a) = b + 1 := by omega
      rw [e3] at h3
      omega

/-- Rounding to a double keeps a non-negative fraction under a natural bound `B`
below `2 ^ 53`: the result is finite and lies between 0 and `B`. -/
theorem roundFrac_bounds (n : ℤ) (d B : ℕ) (hn : 0 ≤ n) (hd : 0 < d) (hB : B < 2 ^ 53)
    (h : n ≤ B * d) :
    ∃ q : ℚ, roundFrac n d = fin q ∧ 0 ≤ q ∧ q ≤ B := by
  by_cases hn0 : n = 0
  · exact ⟨0, by simp [roundFrac, hn0], le_refl _, by positivity⟩
  · lift n to ℕ using hn with a
    have ha : 0 < a := by omega
    have hab : a ≤ B * d := by exact_mod_cast h
    have hle := floorLog2_le a d ha hd
    have he : floorLog2 a d < 53 := by
      by_contra hc
      have hc2 : 53 ≤ floorLog2 a d := not_lt.mp hc
      have e1 : (-(floorLog2 a d)).toNat = 0 := by omega
      rw [e1, pow_zero, Nat.mul_one] at hle
      have h53 : 2 ^ 53 ≤ 2 ^ (floorLog2 a d).toNat :=
        Nat.pow_le_pow_right (by norm_num) (by omega)
      have h1 : d * 2 ^ 53 ≤ d * 2 ^ (floorLog2 a d).toNat := Nat.mul_le_mul_left _ h53
      have h2 : B * d < 2 ^ 53 * d := Nat.mul_lt_mul_of_pos_right hB hd
      have h3 : d * 2 ^ 53 = 2 ^ 53 * d := Nat.mul_comm _ _
      omega
    unfold roundFrac
    rw [if_neg hn0]
    simp only [Int.natAbs_ofNat]
    generalize hk : max (floorLog2 a d) (-1022) - 52 = k
    have hk0 : k ≤ 0 := by
      rw [← hk]
      have : max (floorLog2 a d) (-1022) ≤ 52 := max_le (by omega) (by norm_num)
      omega
    have hkt : k.toNat = 0 := by omega
    generalize hK : (-k).toNat = K
    rw [hkt, pow_zero, Nat.mul_one, Nat.mul_one]
    have hm : roundHalfEven (a * 2 ^ K) d ≤ B * 2 ^ K := by
      apply roundHalfEven_le _ _ _ hd
      calc a * 2 ^ K ≤ B * d * 2 ^ K := Nat.mul_le_mul_right _ hab
        _ = B * 2 ^ K * d := by ring
    have hnot : ¬ (971 ≤ k ∧ 2 ^ (1024 - k).toNat ≤ roundHalfEven (a * 2 ^ K) d) := by
      intro hc
      omega
    rw [if_neg hnot]
    refine ⟨_, rfl, ?_, ?_⟩
    · rw [Rat.mkRat_eq_div]
      have hs : (a : ℤ).sign = 1 := Int.sign_eq_one_of_pos (by exact_mod_cast ha)
      rw [hs]
      positivity
    · rw [Rat.mkRat_eq_div]
      have hs : (a : ℤ).sign = 1 := Int.sign_eq_one_of_pos (by exact_mod_cast ha)
      rw [hs, div_le_iff₀ (by positivity)]
      push_cast
      have : ((roundHalfEven (a * 2 ^ K) d : ℕ) : ℚ) ≤ ((B * 2 ^ K : ℕ) : ℚ) := by
        exact_mod_cast hm
      push_cast at this
      linarith

/-- Bounds on a rational, stated on its numerator and denominator. -/
theorem rat_num_le_of_le (q : ℚ) (B : ℕ) (h0 : 0 ≤ q) (h : q ≤ B) :
    0 ≤ q.num ∧ q.num ≤ B * q.den := by
  have hden : (0 : ℚ) < q.den := by exact_mod_cast q.den_pos
  have hq : q = q.num / q.den := (Rat.num_div_den q).symm
  constructor
  · exact Rat.num_nonneg.mpr h0
  · have : (q.num : ℚ) ≤ B * q.den := by
      rw [hq, div_le_iff₀ hden] at h
      exact h
    exact_mod_cast this

/-- The percentage expression `Math.round((c / t) * 100)` on integers `0 ≤ c ≤ t`,
`0 < t`, is an integer between 0 and 100. -/
theorem percent_range (c t : ℤ) (hc : 0 ≤ c) (hct : c ≤ t) (ht : 0 < t) :
    ∃ p : ℤ, mathRound (mul (div (ofInt c) (ofInt t)) (ofInt 100)) = ofInt p
      ∧ 0 ≤ p ∧ p ≤ 100 := by
  have htq : (t : ℚ) ≠ 0 := by exact_mod_cast (ne_of_gt ht)
  have hsign : t.sign = 1 := Int.sign_eq_one_of_pos ht
  have hdiv : div (ofInt c) (ofInt t) = roundFrac c t.natAbs := by
    simp [div, ofInt, htq, hsign]
  obtain ⟨q1, hq1, h10, h11⟩ := roundFrac_bounds c t.natAbs 1 hc (by omega) (by norm_num)
    (by simp only [Nat.cast_one, one_mul]; omega)
  obtain ⟨hn1, hn2⟩ := rat_num_le_of_le q1 1 h10 h11
  have hmul : mul (fin q1) (ofInt 100) = roundFrac (q1.num * 100) q1.den := by
    simp [mul, ofInt]
  obtain ⟨q2, hq2, h20, h21⟩ := roundFrac_bounds (q1.num * 100) q1.den 100 (by positivity)
    q1.den_pos (by norm_num) (by push_cast at hn2 ⊢; linarith)
  obtain ⟨hm1, hm2⟩ := rat_num_le_of_le q2 100 h20 h21
  have hden : (0 : ℤ) < q2.den := by exact_mod_cast q2.den_pos
  refine ⟨(2 * q2.num + q2.den) / (2 * (q2.den : ℤ)), ?_, ?_, ?_⟩
  · rw [hdiv, hq1, hmul, hq2]
    rfl
  · exact Int.ediv_nonneg (by omega) (by omega)
  · have : (2 * q2.num + q2.den) / (2 * (q2.den : ℤ)) < 101 := by
      apply Int.ediv_lt_of_lt_mul (by omega)
      push_cast at hm2
      omega
    omega

end JSNumber

theorem JSNumber.orElse_ofInt_zero (n : ℤ) :
    (JSNumber.ofInt n).orElse (JSNumber.ofInt 0) = JSNumber.ofInt n := by
  by_cases h : n = 0
  · subst h; simp [JSNumber.orElse, JSNumber.ofInt, JSNumber.truthy]
  · have : (n : ℚ) ≠ 0 := by exact_mod_cast h
    simp [JSNumber.orElse, JSNumber.ofInt, JSNumber.truthy, this]

theorem JSNumber.mathMin_ofInt (a b : ℤ) :
    JSNumber.mathMin (JSNumber.ofInt a) (JSNumber.ofInt b) = JSNumber.ofInt (min a b) := by
  by_cases h : b < a
  · have hq : (b : ℚ) < a := by exact_mod_cast h
    simp [JSNumber.mathMin, JSNumber.ofInt, JSNumber.lt, hq, min_eq_right (le_of_lt h)]
  · have hq : ¬ (b : ℚ) < a := by exact_mod_cast h
    simp [JSNumber.mathMin, JSNumber.ofInt, JSNumber.lt, hq, min_eq_left (not_lt.mp h)]

theorem JSNumber.ofInt_injective {a b : ℤ} (h : JSNumber.ofInt a = JSNumber.ofInt b) : a = b := by
  simpa [JSNumber.ofInt] using h

/-- What `updateCourseProgress` stores for an integer input `n` on a course with an
integer `totalVideos = t`: the course found under the id afterwards is the old one
with `completed = min n t` and the new `updatedAt`; the lower bound 0 plays no part. -/
theorem updateCourseProgress_stored (data : Document) (courseId now : String) (course : Course)
    (n t : ℤ) (hfind : data.courses.find? (fun c => c.id == courseId) = some course)
    (ht : course.totalVideos = JSNumber.ofInt t) :
    (updateCourseProgress data courseId (JSNumber.ofInt n) now).courses.find?
        (fun c => c.id == courseId)
      = some { course with completed := JSNumber.ofInt (min n t), updatedAt := now } := by
  unfold updateCourseProgress
  rw [hfind]
  simp only
  rw [find?_updateFirst _ _ (fun x hx => by simpa using hx), hfind]
  simp [JSNumber.orElse_ofInt_zero, ht, JSNumber.mathMin_ofInt]

/-- For a non-negative integer input the stored `completed` is the two-sided clamp:
the part of the clamping contract that `Math.min` alone delivers. -/
theorem updateCourseProgress_clamps_nonnegative (data : Document) (courseId now : String)
    (course : Course) (n t : ℤ)
    (hfind : data.courses.find? (fun c => c.id == courseId) = some course)
    (ht : course.totalVideos = JSNumber.ofInt t) (hn : 0 ≤ n) (ht0 : 0 ≤ t) :
    (updateCourseProgress data courseId (JSNumber.ofInt n) now).courses.find?
        (fun c => c.id == courseId)
      = some { course with completed := JSNumber.ofInt (clamp n 0 t), updatedAt := now } := by
  rw [updateCourseProgress_stored data courseId now course n t hfind ht]
  have : clamp n 0 t = min n t := by
    unfold clamp
    exact max_eq_right (le_min hn ht0)
  rw [this]

theorem splitChars_no_sep (sep : Char) (cs : List Char) (h : sep ∉ cs) :
    splitChars sep cs = [cs] := by
  induction cs with
  | nil => rfl
  | cons c cs ih =>
    have hc : c ≠ sep := fun e => h (by simp [e])
    have hcs : sep ∉ cs := fun e => h (by simp [e])
    simp [splitChars, hc, ih hcs]

theorem projectHash_data (id : String) :
    ("#/project/" ++ id).data = ['#', '/', 'p', 'r', 'o', 'j', 'e', 'c', 't', '/'] ++ id.data := by
  rw [String.data_append]

theorem split_projectHash (id : String) (h : '/' ∉ id.data) :
    (split ("#/project/" ++ id) '/').get? 2 = some id := by
  simp [split, projectHash_data, splitChars, splitChars_no_sep _ _ h]

theorem startsWith_projectHash (id : String) :
    startsWith ("#/project/" ++ id) "#/project/" = true := by
  simp [startsWith, String.data_append]

theorem projectHash_ne (id : String) :
    "#/project/" ++ id ≠ "" ∧ "#/project/" ++ id ≠ "#/" ∧ "#/project/" ++ id ≠ "#/projects" := by
  refine ⟨?_, ?_, ?_⟩ <;> intro e <;> have e2 := congrArg String.data e <;>
    rw [projectHash_data] at e2 <;> simp at e2

/-- A fragment that passes none of the four tests of `handleRouting` leaves every
view without `active` and calls no renderer. -/
theorem handleRouting_unrecognized (dateValue : String → Option ℤ) (data : Document)
    (b : Browser) (h0 : b.hash ≠ "") (h1 : b.hash ≠ "#/") (h2 : b.hash ≠ "#/projects")
    (h3 : startsWith b.hash "#/project/" = false) (h4 : b.hash ≠ "#/courses") :
    handleRouting dateValue data b = ({ b with active := [] }, none) := by
  simp [handleRouting, h0, h1, h2, h3, h4]

/-- A project id that no project carries makes `find` return `undefined`. -/
theorem find?_id_none (data : Document) (id : String) (h : ∀ p ∈ data.projects, p.id ≠ id) :
    data.projects.find? (fun p => some p.id == some id) = none := by
  rw [List.find?_eq_none]
  intro p hp
  simpa using h p hp

/-- Routing the fragment `#/projects` shows the project list, whatever was active. -/
theorem handleRouting_projects (dateValue : String → Option ℤ) (data : Document) (b : Browser)
    (h : b.hash = "#/projects") :
    handleRouting dateValue data b
      = ({ b with active := [View.projects] }, some (.projectsList (renderProjectsList data))) := by
  simp [handleRouting, h]

theorem orderedInsert_pairwise (dateValue : String → Option ℤ) (a : Update) (l : List Update)
    (ha : (dateValue a.timestamp).isSome = true)
    (hl : ∀ u ∈ l, (dateValue u.timestamp).isSome = true)
    (hs : l.Pairwise (notOlder dateValue)) :
    (List.orderedInsert (timelineOrder dateValue) a l).Pairwise (notOlder dateValue) := by
  obtain ⟨ta, hta⟩ := Option.isSome_iff_exists.mp ha
  induction l with
  | nil => simp
  | cons b l ih =>
    obtain ⟨tb, htb⟩ := Option.isSome_iff_exists.mp (hl b (by simp))
    have hl2 : ∀ u ∈ l, (dateValue u.timestamp).isSome = true := fun u hu => hl u (by simp [hu])
    rw [List.pairwise_cons] at hs
    by_cases hab : timelineOrder dateValue a b
    · rw [List.orderedInsert, if_pos hab]
      have hle : tb ≤ ta := by
        simp only [timelineOrder, hta, htb] at hab
        linarith
      refine List.Pairwise.cons ?_ (List.Pairwise.cons hs.1 hs.2)
      intro x hx
      rcases List.mem_cons.mp hx with rfl | hx
      · exact ⟨ta, tb, hta, htb, hle⟩
      · obtain ⟨tb2, tx, h1, h2, h3⟩ := hs.1 x hx
        rw [htb] at h1
        cases h1
        exact ⟨ta, tx, hta, h2, le_trans h3 hle⟩
    · rw [List.orderedInsert, if_neg hab]
      have hlt : ta ≤ tb := by
        simp only [timelineOrder, hta, htb] at hab
        linarith
      refine List.Pairwise.cons ?_ (ih hl2 hs.2)
      intro x hx
      rcases (List.mem_orderedInsert _).mp hx with rfl | hx
      · exact ⟨tb, ta, htb, hta, hlt⟩
      · exact hs.1 x hx

theorem sortUpdates_pairwise (dateValue : String → Option ℤ) (l : List Update)
    (hl : ∀ u ∈ l, (dateValue u.timestamp).isSome = true) :
    (sortUpdates dateValue l).Pairwise (notOlder dateValue) := by
  induction l with
  | nil => simp [sortUpdates]
  | cons a l ih =>
    have hl2 : ∀ u ∈ l, (dateValue u.timestamp).isSome = true := fun u hu => hl u (by simp [hu])
    have := ih hl2
    unfold sortUpdates at this ⊢
    rw [List.insertionSort]
    refine orderedInsert_pairwise dateValue a _ (hl a (by simp)) ?_ this
    intro u hu
    exact hl2 u ((List.mem_insertionSort _).mp hu)

theorem sortUpdates_perm (dateValue : String → Option ℤ) (l : List Update) :
    (sortUpdates dateValue l).Perm l :=
  List.perm_insertionSort _ l

theorem sortUpdates_three (dateValue : String → Option ℤ) (l : List Update)
    (u1 u2 u3 : Update) (T1 T2 T3 : ℤ)
    (h1 : dateValue u1.timestamp = some T1) (h2 : dateValue u2.timestamp = some T2)
    (h3 : dateValue u3.timestamp = some T3) (h12 : T1 < T2) (h23 : T2 < T3)
    (hp : l.Perm [u1, u2, u3]) :
    sortUpdates dateValue l = [u3, u2, u1] := by
  have hmem : ∀ u ∈ l, u = u1 ∨ u = u2 ∨ u = u3 := fun u hu => by
    simpa using hp.subset hu
  have hvalid : ∀ u ∈ l, (dateValue u.timestamp).isSome = true := fun u hu => by
    rcases hmem u hu with rfl | rfl | rfl <;> simp [h1, h2, h3]
  have hs := sortUpdates_pairwise dateValue l hvalid
  have hperm : (sortUpdates dateValue l).Perm [u1, u2, u3] :=
    (sortUpdates_perm dateValue l).trans hp
  have hmem2 : ∀ u ∈ sortUpdates dateValue l, u = u1 ∨ u = u2 ∨ u = u3 := fun u hu => by
    simpa using hperm.subset hu
  have hmap : (sortUpdates dateValue l).map (fun u => (dateValue u.timestamp).getD 0)
      = [T3, T2, T1] := by
    refine List.eq_of_perm_of_sorted (r := (· ≥ ·)) ?_ ?_ ?_
    · refine (hperm.map _).trans ?_
      simp only [List.map, h1, h2, h3, Option.getD_some]
      exact (List.Perm.swap _ _ _).trans
        (((List.Perm.swap _ _ _).cons _).trans (List.Perm.swap _ _ _))
    · rw [List.Sorted, List.pairwise_map]
      refine hs.imp ?_
      rintro a b ⟨ta, tb, ha, hb, hle⟩
      simpa [ha, hb] using hle
    · simp [List.Sorted]
      omega
  generalize sortUpdates dateValue l = r at hmap hmem2
  match r, hmap, hmem2 with
  | [a, b, c], hmap, hmem2 =>
    simp only [List.map, List.cons.injEq, and_true] at hmap
    obtain ⟨ea, eb, ec⟩ := hmap
    have hval : ∀ u, (u = u1 ∨ u = u2 ∨ u = u3) → ∀ T, (dateValue u.timestamp).getD 0 = T →
        (T = T1 → u = u1) ∧ (T = T2 → u = u2) ∧ (T = T3 → u = u3) := by
      intro u hu T hT
      rcases hu with rfl | rfl | rfl <;> simp [h1, h2, h3] at hT <;>
        refine ⟨?_, ?_, ?_⟩ <;> intro e <;> first | rfl | omega
    have ha := (hval a (hmem2 a (by simp)) T3 ea).2.2 rfl
    have hb := (hval b (hmem2 b (by simp)) T2 eb).2.1 rfl
    have hc := (hval c (hmem2 c (by simp)) T1 ec).1 rfl
    rw [ha, hb, hc]

/-- The success branch of the import handler: a confirmed upload that parses to a
value whose `projects` and `courses` are arrays is saved, reported and routed. -/
theorem importFile_success (J : JSON) (storage : Storage) (text : String) (D : JSValue)
    (hparse : J.parse text = some D)
    (hprojects : D.hasArray "projects") (hcourses : D.hasArray "courses") :
    importFile J storage (some text) true
      = ⟨some (J.stringify D), some .importedSuccessfully, true⟩ := by
  obtain ⟨ps, hps⟩ := hprojects
  obtain ⟨cs, hcs⟩ := hcourses
  simp [importFile, hparse, hps, hcs, JSValue.truthy, saveData]

/-- Reading back a saved value: `loadData` after `saveData(D)` returns `D` when
`JSON.parse` inverts `JSON.stringify` on `D` and rejects the empty text. -/
theorem loadData_saved (J : JSON) (D : JSValue)
    (hround : J.parse (J.stringify D) = some D) (hempty : J.parse "" = none) :
    loadData J (some (J.stringify D)) = some D := by
  have hne : J.stringify D ≠ "" := by
    intro e
    rw [e, hempty] at hround
    exact Option.noConfusion hround
  simp [loadData, hne, hround]

/-- The import handler writes the store on one path only: the user confirmed, the
text parsed, and both `projects` and `courses` hold a truthy value; the store then
holds `JSON.stringify` of the parsed value.  On every other path the store is the
one before. -/
theorem importFile_storage_cases (J : JSON) (storage : Storage) (text : String)
    (confirmed : Bool) :
    (importFile J storage (some text) confirmed).storage = storage
    ∨ (confirmed = true ∧ ∃ D, J.parse text = some D
        ∧ (∃ x, D.member "projects" = some (some x) ∧ JSValue.truthy (some x) = true)
        ∧ (∃ y, D.member "courses" = some (some y) ∧ JSValue.truthy (some y) = true)
        ∧ (importFile J storage (some text) confirmed).storage = some (J.stringify D)) := by
  cases confirmed
  · left; simp [importFile]
  · cases hD : J.parse text with
    | none => left; simp [importFile, hD]
    | some D =>
      cases hp : D.member "projects" with
      | none => left; simp [importFile, hD, hp]
      | some projects =>
        cases projects with
        | none => left; simp [importFile, hD, hp, JSValue.truthy]
        | some x =>
          by_cases hx : JSValue.truthy (some x) = true
          · cases hc : D.member "courses" with
            | none => left; simp [importFile, hD, hp, hx, hc]
            | some courses =>
              cases courses with
              | none => left; simp [importFile, hD, hp, hx, hc, JSValue.truthy]
              | some y =>
                by_cases hy : JSValue.truthy (some y) = true
                · right
                  exact ⟨rfl, D, rfl, ⟨x, hp, hx⟩, ⟨y, hc, hy⟩, by
                    simp [importFile, hD, hp, hx, hc, hy, saveData]⟩
                · left; simp [importFile, hD, hp, hx, hc, hy]
          · left; simp [importFile, hD, hp, hx]

/-- A value that holds nothing under `key` fails the test of the import handler. -/
theorem JSValue.falsyMember_of_lacks (v : JSValue) (key : String) (h : v.lacks key) :
    v.falsyMember key := by
  intro x hx
  cases x with
  | none => rfl
  | some y => exact absurd hx (h y)

/-- The shape check of the import handler is truthiness, not a test for arrays: a
value whose `projects` is the number 5 and whose `courses` is the string `x` is
saved like a document. -/
theorem importFile_accepts_truthy_members (J : JSON) (storage : Storage) (text : String)
    (hparse : J.parse text
      = some (.object [("projects", .number (JSNumber.ofInt 5)), ("courses", .string "x")])) :
    (importFile J storage (some text) true).storage
      = some (J.stringify
          (.object [("projects", .number (JSNumber.ofInt 5)), ("courses", .string "x")])) := by
  simp [importFile, hparse, JSValue.member, List.lookup, JSValue.truthy, JSNumber.truthy,
    JSNumber.ofInt, saveData]

/-- The element `find` returns splits the list: everything before it fails the
test, and `updateFirst` changes that element only. -/
theorem updateFirst_split {α : Type} (p : α → Bool) (f : α → α) (l : List α) (x : α)
    (h : l.find? p = some x) :
    ∃ pre post, l = pre ++ x :: post ∧ (∀ y ∈ pre, p y = false)
      ∧ updateFirst p f l = pre ++ f x :: post := by
  induction l with
  | nil => simp at h
  | cons a l ih =>
    by_cases ha : p a = true
    · have hx : a = x := by simpa [List.find?, ha] using h
      subst hx
      exact ⟨[], l, rfl, by simp, by simp [updateFirst, ha]⟩
    · have h2 : l.find? p = some x := by simpa [List.find?, ha] using h
      obtain ⟨pre, post, h3, h4, h5⟩ := ih h2
      refine ⟨a :: pre, post, by rw [h3]; rfl, ?_, ?_⟩
      · intro y hy
        rcases List.mem_cons.mp hy with rfl | hy
        · simpa using ha
        · exact h4 y hy
      · simp [updateFirst, ha, h5]

/-- A key that the update keeps is kept along the whole list. -/
theorem map_updateFirst {α β : Type} (p : α → Bool) (f : α → α) (g : α → β)
    (hg : ∀ x, g (f x) = g x) (l : List α) :
    (updateFirst p f l).map g = l.map g := by
  induction l with
  | nil => rfl
  | cons a l ih =>
    by_cases ha : p a = true
    · simp [updateFirst, ha, hg]
    · simp [updateFirst, ha, ih]

theorem filesToBase64Loop_success (readAsDataURL : File → Option String)
    (results : List Attachment) (files : List File) (datas : List String)
    (h : files.map readAsDataURL = datas.map some) :
    filesToBase64Loop readAsDataURL results files
      = some (results ++ List.zipWith
          (fun file base64 =>
            { name := file.name, type := file.type, size := file.size, data := base64 })
          files datas) := by
  induction files generalizing results datas with
  | nil =>
    cases datas with
    | nil => simp [filesToBase64Loop]
    | cons d ds => simp at h
  | cons file files ih =>
    cases datas with
    | nil => simp at h
    | cons d ds =>
      simp only [List.map_cons, List.cons.injEq] at h
      obtain ⟨h1, h2⟩ := h
      simp only [filesToBase64Loop, h1]
      rw [ih _ ds h2]
      simp

theorem filesToBase64Loop_failure (readAsDataURL : File → Option String)
    (results : List Attachment) (files : List File)
    (h : ∃ file ∈ files, readAsDataURL file = none) :
    filesToBase64Loop readAsDataURL results files = none := by
  induction files generalizing results with
  | nil => simp at h
  | cons file files ih =>
    cases hr : readAsDataURL file with
    | none => simp [filesToBase64Loop, hr]
    | some base64 =>
      simp only [filesToBase64Loop, hr]
      apply ih
      obtain ⟨g, hg, hgn⟩ := h
      rcases List.mem_cons.mp hg with rfl | hg
      · rw [hr] at hgn; exact Option.noConfusion hgn
      · exact ⟨g, hg, hgn⟩

/-- The function `initializeData` leaves a document that is already stored as it is. -/
theorem initializeData_keeps_existing (data : Document) (projectId updateId courseId : String)
    (updateTime projectCreated projectUpdated courseCreated courseUpdated : String) :
    initializeData (some data) projectId updateId courseId updateTime projectCreated
      projectUpdated courseCreated courseUpdated = data :=
  rfl

/-- No handler other than the import takes a project out of the document: the ids
of the projects afterwards are the ids before, in the same order, followed by at
most one new id. -/
theorem Command.run_keeps_project_ids (c : Command) (data after : Document)
    (hc : c.isImport = false) (hrun : c.run data = some after) :
    ∃ added : List String,
      after.projects.map (fun p => p.id) = data.projects.map (fun p => p.id) ++ added
      ∧ added.length ≤ 1 := by
  cases c with
  | submitProjectForm editId form now newId =>
    simp only [Command.run, Option.some.injEq] at hrun
    subst hrun
    by_cases hid : editId ≠ ""
    · refine ⟨[], ?_, by simp⟩
      simp only [ProjectHub.submitProjectForm, if_pos hid, List.append_nil]
      exact map_updateFirst _ _ (fun p : Project => p.id) (by intro x; rfl) _
    · refine ⟨[newId], ?_, by simp⟩
      simp [ProjectHub.submitProjectForm, hid]
  | submitUpdateForm readAsDataURL toISOString currentProjectId pendingFiles editId form now
      newId =>
    simp only [Command.run, ProjectHub.submitUpdateForm] at hrun
    refine ⟨[], ?_, by simp⟩
    split at hrun
    · exact Option.noConfusion hrun
    · split at hrun
      · exact Option.noConfusion hrun
      · split at hrun
        · exact Option.noConfusion hrun
        · simp only [Option.some.injEq] at hrun
          subst hrun
          simp only [List.append_nil]
          exact map_updateFirst _ _ (fun p : Project => p.id) (by intro x; rfl) _
  | submitCourseForm form now newId =>
    simp only [Command.run, Option.some.injEq] at hrun
    subst hrun
    exact ⟨[], by simp [ProjectHub.submitCourseForm], by simp⟩
  | removeExistingAttachment currentProjectId updateId index =>
    simp only [Command.run, ProjectHub.removeExistingAttachment] at hrun
    refine ⟨[], ?_, by simp⟩
    split at hrun
    · exact Option.noConfusion hrun
    · simp only [Option.some.injEq] at hrun
      subst hrun
      simp only [List.append_nil]
      exact map_updateFirst _ _ (fun p : Project => p.id) (by intro x; rfl) _
  | deleteUpdate currentProjectId updateId confirmed now =>
    simp only [Command.run, ProjectHub.deleteUpdate] at hrun
    refine ⟨[], ?_, by simp⟩
    split at hrun
    · simp only [Option.some.injEq] at hrun
      subst hrun
      simp
    · split at hrun
      · exact Option.noConfusion hrun
      · simp only [Option.some.injEq] at hrun
        subst hrun
        simp only [List.append_nil]
        exact map_updateFirst _ _ (fun p : Project => p.id) (by intro x; rfl) _
  | updateCourseProgress courseId completed now =>
    simp only [Command.run, Option.some.injEq] at hrun
    subst hrun
    refine ⟨[], ?_, by simp⟩
    unfold ProjectHub.updateCourseProgress
    split <;> simp
  | deleteCourse courseId confirmed =>
    simp only [Command.run, Option.some.injEq] at hrun
    subst hrun
    refine ⟨[], ?_, by simp⟩
    unfold ProjectHub.deleteCourse
    split <;> simp
  | importDocument imported => simp [Command.isImport] at hc

theorem isTabOrNewline_inFragmentEncodeSet (c : Char) (h : inFragmentEncodeSet c = false) :
    isTabOrNewline c = false := by
  simp only [inFragmentEncodeSet, Bool.or_eq_false_iff, decide_eq_false_iff_not] at h
  simp only [isTabOrNewline, Bool.or_eq_false_iff, decide_eq_false_iff_not]
  omega

/-- A sequence without characters of the fragment percent-encode set is its own
fragment. -/
theorem encodeFragment_safe (cs : List Char) (h : ∀ c ∈ cs, inFragmentEncodeSet c = false) :
    encodeFragment cs = cs := by
  induction cs with
  | nil => rfl
  | cons c cs ih =>
    have hc := h c (by simp)
    have hcs : ∀ x ∈ cs, inFragmentEncodeSet x = false := fun x hx => h x (by simp [hx])
    simp [encodeFragment, isTabOrNewline_inFragmentEncodeSet c hc, percentEncodeChar, hc, ih hcs]

/-- The fragment read back after `navigateTo('#/project/' + id)`. -/
theorem assignedHash_projectHash (id : String) :
    assignedHash ("#/project/" ++ id) = "#/project/" ++ percentEncode id := by
  have hdata : ("#/project/" ++ id).data
      = '#' :: (['/', 'p', 'r', 'o', 'j', 'e', 'c', 't', '/'] ++ id.data) := by
    rw [String.data_append]; rfl
  have henc : encodeFragment (['/', 'p', 'r', 'o', 'j', 'e', 'c', 't', '/'] ++ id.data)
      = ['/', 'p', 'r', 'o', 'j', 'e', 'c', 't', '/'] ++ encodeFragment id.data := by
    simp [encodeFragment, isTabOrNewline, percentEncodeChar, inFragmentEncodeSet]
  unfold assignedHash
  rw [hdata]
  simp only [henc]
  apply String.ext
  simp [percentEncode, String.data_append]

theorem assignedHash_projects : assignedHash "#/projects" = "#/projects" := by decide

/-- The first piece of a split is the part before the first separator. -/
theorem splitChars_head (sep : Char) (cs : List Char) :
    ∃ rest, splitChars sep cs = cs.takeWhile (fun c => c != sep) :: rest := by
  induction cs with
  | nil => exact ⟨[], rfl⟩
  | cons c cs ih =>
    obtain ⟨rest, hrest⟩ := ih
    by_cases hc : c = sep
    · exact ⟨splitChars sep cs, by simp [splitChars, hc]⟩
    · exact ⟨rest, by simp [splitChars, hc, hrest]⟩

/-- The third piece of a project fragment split at `/` is the part of what follows
`#/project/` before its first `/`. -/
theorem split_projectHash_firstSegment (s : String) :
    (split ("#/project/" ++ s) '/').get? 2 = some (firstSegment s) := by
  obtain ⟨rest, hrest⟩ := splitChars_head '/' s.data
  simp [split, projectHash_data, splitChars, hrest, firstSegment]

theorem firstSegment_no_slash (id : String) (h : '/' ∉ id.data) : firstSegment id = id := by
  unfold firstSegment
  have : id.data.takeWhile (fun c => c != '/') = id.data := by
    rw [List.takeWhile_eq_self_iff]
    intro c hc
    simp only [bne_iff_ne, ne_eq]
    intro e
    exact h (e ▸ hc)
  rw [this]

/-- Routing a project fragment: the detail view becomes the active one,
`currentProjectId` becomes the part of what follows `#/project/` before its first
`/`, and the detail of that id is rendered. -/
theorem handleRouting_projectHash (dateValue : String → Option ℤ) (data : Document)
    (b : Browser) (s : String) (h : b.hash = "#/project/" ++ s) :
    (handleRouting dateValue data b).1.active = [View.projectDetail]
    ∧ (handleRouting dateValue data b).1.currentProjectId = some (firstSegment s)
    ∧ (handleRouting dateValue data b).2
        = some (.projectDetail (renderProjectDetail dateValue data (some (firstSegment s)))) := by
  obtain ⟨h0, h1, h2⟩ := projectHash_ne s
  have step : handleRouting dateValue data b
      = (match renderProjectDetail dateValue data (some (firstSegment s)) with
        | .redirect target =>
          (navigateTo
            { b with currentProjectId := some (firstSegment s), active := [View.projectDetail] }
            target, some (.projectDetail (.redirect target)))
        | .page project timeline =>
          ({ b with currentProjectId := some (firstSegment s), active := [View.projectDetail] },
            some (.projectDetail (.page project timeline)))) := by
    have hid2 : (split ("#/project/" ++ s) '/')[2]? = some (firstSegment s) := by
      simpa using split_projectHash_firstSegment s
    simp [handleRouting, h, h0, h1, h2, startsWith_projectHash, hid2]
  rw [step]
  cases renderProjectDetail dateValue data (some (firstSegment s)) <;> simp [navigateTo]

/-! ### Accuracy of the double arithmetic -/

namespace JSNumber

/-- A natural number below `2 ^ 53` is a double: rounding leaves it as it is. -/
theorem roundFrac_nat_exact (n : ℕ) (h : n < 2 ^ 53) : roundFrac (n : ℤ) 1 = fin (n : ℚ) := by
  by_cases hn0 : n = 0
  · subst hn0; simp [roundFrac]
  · have hn : 0 < n := Nat.pos_of_ne_zero hn0
    have hz : (n : ℤ) ≠ 0 := by exact_mod_cast hn0
    have hle := floorLog2_le n 1 hn (by norm_num)
    have he : floorLog2 n 1 < 53 := by
      by_contra hc
      have hc2 : 53 ≤ floorLog2 n 1 := not_lt.mp hc
      have e1 : (-(floorLog2 n 1)).toNat = 0 := by omega
      rw [e1, pow_zero, Nat.mul_one, Nat.one_mul] at hle
      have h53 : 2 ^ 53 ≤ 2 ^ (floorLog2 n 1).toNat :=
        Nat.pow_le_pow_right (by norm_num) (by omega)
      omega
    unfold roundFrac
    rw [if_neg hz]
    simp only [Int.natAbs_ofNat]
    generalize hk : max (floorLog2 n 1) (-1022) - 52 = k
    have hk0 : k ≤ 0 := by
      rw [← hk]
      have : max (floorLog2 n 1) (-1022) ≤ 52 := max_le (by omega) (by norm_num)
      omega
    have hkt : k.toNat = 0 := by omega
    generalize hK : (-k).toNat = K
    rw [hkt, pow_zero, Nat.mul_one, Nat.mul_one]
    have hm : roundHalfEven (n * 2 ^ K) 1 = n * 2 ^ K := by
      simp [roundHalfEven, Nat.mod_one]
    rw [hm]
    have hnot : ¬ (971 ≤ k ∧ 2 ^ (1024 - k).toNat ≤ n * 2 ^ K) := by
      intro hc
      omega
    rw [if_neg hnot]
    have hs : (n : ℤ).sign = 1 := Int.sign_eq_one_of_pos (by exact_mod_cast hn)
    rw [hs, Rat.mkRat_eq_div]
    congr 1
    push_cast
    field_simp

/-- Rounding to the nearest natural number moves a fraction by at most one half. -/
theorem roundHalfEven_error (x d : ℕ) (hd : 0 < d) :
    2 * (roundHalfEven x d * d) ≤ 2 * x + d ∧ 2 * x ≤ 2 * (roundHalfEven x d * d) + d := by
  have hdm := Nat.div_add_mod x d
  have hmod := Nat.mod_lt x hd
  have hcomm : d * (x / d) = x / d * d := Nat.mul_comm _ _
  unfold roundHalfEven
  simp only
  split_ifs with h1 h2 h3
  · constructor <;> omega
  · rw [Nat.add_mul]
    constructor <;> omega
  · constructor <;> omega
  · rw [Nat.add_mul]
    constructor <;> omega

/-- Rounding a non-negative fraction that is at most `2 ^ j`, `j ≤ 52`, to a double
moves it by at most `2 ^ j / 2 ^ 53`, half a unit in the last of 53 bits. -/
theorem roundFrac_error (a d j : ℕ) (q : ℚ) (hd : 0 < d) (hj : j ≤ 52) (h : a ≤ 2 ^ j * d)
    (hq : roundFrac (a : ℤ) d = fin q) :
    |q - (a : ℚ) / d| ≤ 2 ^ j / 2 ^ 53 := by
  by_cases ha0 : a = 0
  · subst ha0
    simp only [roundFrac, Nat.cast_zero, if_true, fin.injEq] at hq
    rw [← hq]
    simp
    positivity
  · have ha : 0 < a := Nat.pos_of_ne_zero ha0
    have hz : (a : ℤ) ≠ 0 := by exact_mod_cast ha0
    have hle := floorLog2_le a d ha hd
    have he : floorLog2 a d ≤ j := by
      by_contra hc
      have hc2 : (j : ℤ) + 1 ≤ floorLog2 a d := by omega
      have e1 : (-(floorLog2 a d)).toNat = 0 := by omega
      rw [e1, pow_zero, Nat.mul_one] at hle
      have hpow : 2 ^ (j + 1) ≤ 2 ^ (floorLog2 a d).toNat :=
        Nat.pow_le_pow_right (by norm_num) (by omega)
      have h1 : d * 2 ^ (j + 1) ≤ d * 2 ^ (floorLog2 a d).toNat := Nat.mul_le_mul_left _ hpow
      have h2 : d * 2 ^ (j + 1) = 2 * (2 ^ j * d) := by ring
      have h3 : 0 < 2 ^ j * d := Nat.mul_pos (by positivity) hd
      omega
    unfold roundFrac at hq
    rw [if_neg hz] at hq
    simp only [Int.natAbs_ofNat] at hq
    generalize hk : max (floorLog2 a d) (-1022) - 52 = k at hq
    have hk0 : k ≤ (j : ℤ) - 52 := by
      rw [← hk]
      have : max (floorLog2 a d) (-1022) ≤ j := max_le he (by omega)
      omega
    have hkt : k.toNat = 0 := by omega
    generalize hK : (-k).toNat = K at hq
    have hKj : 52 ≤ K + j := by omega
    rw [hkt, pow_zero, Nat.mul_one, Nat.mul_one] at hq
    have hnot : ¬ (971 ≤ k ∧ 2 ^ (1024 - k).toNat ≤ roundHalfEven (a * 2 ^ K) d) := by
      intro hc
      omega
    rw [if_neg hnot] at hq
    have hs : (a : ℤ).sign = 1 := Int.sign_eq_one_of_pos (by exact_mod_cast ha)
    rw [hs, Rat.mkRat_eq_div] at hq
    simp only [fin.injEq] at hq
    obtain ⟨h1, h2⟩ := roundHalfEven_error (a * 2 ^ K) d hd
    generalize roundHalfEven (a * 2 ^ K) d = m at hq h1 h2
    have hP : (0 : ℚ) < 2 ^ K := by positivity
    have hD : (0 : ℚ) < d := by exact_mod_cast hd
    have h1q : 2 * ((m : ℚ) * d) ≤ 2 * (a * 2 ^ K) + d := by exact_mod_cast h1
    have h2q : 2 * ((a : ℚ) * 2 ^ K) ≤ 2 * (m * d) + d := by exact_mod_cast h2
    have hqm : q = (m : ℚ) / 2 ^ K := by
      rw [← hq]; push_cast; ring
    have hhalf : |q - (a : ℚ) / d| ≤ 1 / (2 * 2 ^ K) := by
      have key : (m : ℚ) / 2 ^ K - a / d
          = (2 * ((m : ℚ) * d) - 2 * (a * 2 ^ K)) / (2 * 2 ^ K * d) := by
        field_simp
        ring
      have habs : |2 * ((m : ℚ) * d) - 2 * (a * 2 ^ K)| ≤ d :=
        abs_le.mpr ⟨by linarith, by linarith⟩
      have hpos : (0 : ℚ) < 2 * 2 ^ K * d := by positivity
      rw [hqm, key, abs_div, abs_of_pos hpos, div_le_div_iff₀ hpos (by positivity)]
      calc |2 * ((m : ℚ) * d) - 2 * (a * 2 ^ K)| * (2 * 2 ^ K)
          ≤ d * (2 * 2 ^ K) := mul_le_mul_of_nonneg_right habs (by positivity)
        _ = 1 * (2 * 2 ^ K * d) := by ring
    refine le_trans hhalf ?_
    rw [div_le_div_iff₀ (by positivity) (by positivity), one_mul]
    have hpow : (2 : ℚ) ^ 53 ≤ 2 ^ (j + (K + 1)) :=
      pow_le_pow_right₀ (by norm_num) (by omega)
    calc (2 : ℚ) ^ 53 ≤ 2 ^ (j + (K + 1)) := hpow
      _ = 2 ^ j * (2 * 2 ^ K) := by ring

/-- The percentage expression `Math.round((c / t) * 100)` on integers `0 ≤ c ≤ t`,
`0 < t`: the integer it yields lies between 0 and 100 and differs from the exact
quotient `100 c / t` by at most one half plus `2 ^ -45`, the trace of the two
double roundings. -/
theorem percent_accuracy (c t : ℤ) (hc : 0 ≤ c) (hct : c ≤ t) (ht : 0 < t) :
    ∃ p : ℤ, mathRound (mul (div (ofInt c) (ofInt t)) (ofInt 100)) = ofInt p
      ∧ 0 ≤ p ∧ p ≤ 100 ∧ |(p : ℚ) - 100 * c / t| ≤ 1 / 2 + 1 / 2 ^ 45 := by
  have htq : (t : ℚ) ≠ 0 := by exact_mod_cast (ne_of_gt ht)
  have htpos : (0 : ℚ) < t := by exact_mod_cast ht
  have hsign : t.sign = 1 := Int.sign_eq_one_of_pos ht
  have hdiv : div (ofInt c) (ofInt t) = roundFrac c t.natAbs := by
    simp [div, ofInt, htq, hsign]
  have hnat : (t.natAbs : ℤ) = t := Int.natAbs_of_nonneg (le_of_lt ht)
  obtain ⟨q1, hq1, h10, h11⟩ := roundFrac_bounds c t.natAbs 1 hc (by omega) (by norm_num)
    (by simp only [Nat.cast_one, one_mul]; omega)
  obtain ⟨hn1, hn2⟩ := rat_num_le_of_le q1 1 h10 h11
  have herr1 : |q1 - (c : ℚ) / t| ≤ 1 / 2 ^ 53 := by
    lift c to ℕ using hc with a
    have hle : a ≤ 2 ^ 0 * t.natAbs := by omega
    have h := roundFrac_error a t.natAbs 0 q1 (by omega) (by norm_num) hle hq1
    have hcast : ((t.natAbs : ℕ) : ℚ) = (t : ℚ) := by
      rw [Nat.cast_natAbs, abs_of_pos ht]
    rw [hcast] at h
    simpa using h
  have hmul : mul (fin q1) (ofInt 100) = roundFrac (q1.num * 100) q1.den := by
    simp [mul, ofInt]
  obtain ⟨q2, hq2, h20, h21⟩ := roundFrac_bounds (q1.num * 100) q1.den 100 (by positivity)
    q1.den_pos (by norm_num) (by push_cast at hn2 ⊢; linarith)
  obtain ⟨hm1, hm2⟩ := rat_num_le_of_le q2 100 h20 h21
  have herr2 : |q2 - 100 * q1| ≤ 1 / 2 ^ 46 := by
    have hnum : q1.num = (q1.num.toNat : ℤ) := (Int.toNat_of_nonneg hn1).symm
    have hle : q1.num.toNat * 100 ≤ 2 ^ 7 * q1.den := by
      have : q1.num ≤ q1.den := by simpa using hn2
      omega
    have hq2' : roundFrac ((q1.num.toNat * 100 : ℕ) : ℤ) q1.den = fin q2 := by
      rw [← hq2]; congr 1; push_cast; rw [← hnum]
    have h := roundFrac_error (q1.num.toNat * 100) q1.den 7 q2 q1.den_pos (by norm_num) hle hq2'
    have hden : (0 : ℚ) < q1.den := by exact_mod_cast q1.den_pos
    have hq1 : (((q1.num.toNat * 100 : ℕ) : ℚ)) / q1.den = 100 * q1 := by
      have h1 : ((q1.num.toNat : ℕ) : ℚ) = (q1.num : ℚ) := by exact_mod_cast hnum.symm
      push_cast
      rw [h1]
      have hr : (q1.num : ℚ) * 100 / q1.den = 100 * ((q1.num : ℚ) / q1.den) := by ring
      rw [hr, Rat.num_div_den]
    rw [hq1] at h
    have : (2 : ℚ) ^ 7 / 2 ^ 53 = 1 / 2 ^ 46 := by norm_num
    rwa [this] at h
  have hden : (0 : ℤ) < q2.den := by exact_mod_cast q2.den_pos
  have hdenq : (0 : ℚ) < q2.den := by exact_mod_cast q2.den_pos
  refine ⟨(2 * q2.num + q2.den) / (2 * (q2.den : ℤ)), ?_, ?_, ?_, ?_⟩
  · rw [hdiv, hq1, hmul, hq2]
    rfl
  · exact Int.ediv_nonneg (by omega) (by omega)
  · have : (2 * q2.num + q2.den) / (2 * (q2.den : ℤ)) < 101 := by
      apply Int.ediv_lt_of_lt_mul (by omega)
      push_cast at hm2
      omega
    omega
  · generalize hp : (2 * q2.num + q2.den) / (2 * (q2.den : ℤ)) = p
    have hfl1 : p * (2 * (q2.den : ℤ)) ≤ 2 * q2.num + q2.den := by
      rw [← hp]; exact Int.ediv_mul_le _ (by omega)
    have hfl2 : 2 * q2.num + q2.den < (p + 1) * (2 * (q2.den : ℤ)) := by
      rw [← hp]; exact Int.lt_ediv_add_one_mul_self _ (by omega)
    have hnumq : (q2.num : ℚ) = q2 * q2.den := (Rat.mul_den_eq_num q2).symm
    have hfl1q : (p : ℚ) * (2 * q2.den) ≤ 2 * q2.num + q2.den := by exact_mod_cast hfl1
    have hfl2q : (2 * q2.num + q2.den : ℚ) < (p + 1) * (2 * q2.den) := by exact_mod_cast hfl2
    rw [hnumq] at hfl1q hfl2q
    have hp1 : (p : ℚ) ≤ q2 + 1 / 2 := by
      by_contra hcon
      push_neg at hcon
      nlinarith
    have hp2 : q2 - 1 / 2 < (p : ℚ) := by
      by_contra hcon
      push_neg at hcon
      nlinarith
    have e1 := abs_le.mp herr1
    have e2 := abs_le.mp herr2
    have hscale : (100 : ℚ) * c / t = 100 * ((c : ℚ) / t) := by ring
    have hsmall : (100 : ℚ) * (1 / 2 ^ 53) + 1 / 2 ^ 46 ≤ 1 / 2 ^ 45 := by norm_num
    rw [hscale, abs_le]
    constructor <;> linarith [e1.1, e1.2, e2.1, e2.2]

/-- The difference of 100 and an integer from 0 to 100 is computed exactly. -/
theorem sub_hundred_exact (p : ℤ) (hp0 : 0 ≤ p) (hp1 : p ≤ 100) :
    sub (ofInt 100) (ofInt p) = ofInt (100 - p) := by
  have h : sub (ofInt 100) (ofInt p) = roundFrac (100 - p) 1 := by
    simp [sub, ofInt]
  rw [h]
  obtain ⟨n, hn⟩ := Int.eq_ofNat_of_zero_le (show 0 ≤ 100 - p by omega)
  rw [hn, roundFrac_nat_exact n (by omega)]
  simp [ofInt]

end JSNumber

/-! ## C1: `updateCourseProgress` and the lower bound -/

/-- C1 (evaluation at the failing input): on the seeded course, whose `totalVideos`
is 50, the input -5 is stored as `completed = -5`, whereas the two-sided clamp
`max(0, min(-5, 50))` is 0; the code caps the value from above only. -/
theorem updateCourseProgress_negative_input_stored :
    (updateCourseProgress seedDocument "course-1704931200000-w7e5r1t6y" (JSNumber.ofInt (-5))
        "2024-02-01T00:00:00.000Z").courses.map (fun c => (c.totalVideos, c.completed))
      = [(JSNumber.ofInt 50, JSNumber.ofInt (-5))]
    ∧ clamp (-5) 0 50 = 0
    ∧ JSNumber.ofInt (-5) ≠ JSNumber.ofInt (clamp (-5) 0 50) := by
  decide

/-! ## C2: the project form stores the progress it is given -/

/-- C2 (counterexample): creating a project with progress input 150 stores 150, and
editing the seeded project with progress input -3 stores -3; `clamp` would give 100
and 0. -/
theorem submitProjectForm_progress_not_clamped :
    ((submitProjectForm seedDocument "" ⟨"Thesis", "Write-up", "", JSNumber.ofInt 150⟩
        "2024-02-01T00:00:00.000Z" "proj-1706745600000-b2c4d6e8f").projects.map
          (fun p => p.progress) = [JSNumber.ofInt 65, JSNumber.ofInt 150]
      ∧ JSNumber.ofInt 150 ≠ JSNumber.ofInt (clamp 150 0 100))
    ∧ ((submitProjectForm seedDocument "proj-1704931200000-k3x9q2m1z"
        ⟨"Digital IC Design", "Flow", "", JSNumber.ofInt (-3)⟩
        "2024-02-01T00:00:00.000Z" "proj-1706745600000-b2c4d6e8f").projects.map
          (fun p => p.progress) = [JSNumber.ofInt (-3)]
      ∧ JSNumber.ofInt (-3) ≠ JSNumber.ofInt (clamp (-3) 0 100)) := by
  decide

/-- C2 (amended): the project form stores the parsed progress input unchanged.  On
create the new project, appended last, carries the input; on edit of an existing
project the project found under the id afterwards carries the input.  For an
integer input `n` the stored value is `clamp n 0 100` exactly when `0 ≤ n ≤ 100`. -/
theorem submitProjectForm_stores_input_progress (data : Document) (form : ProjectForm)
    (now newId : String) :
    (∃ p, (submitProjectForm data "" form now newId).projects = data.projects ++ [p]
        ∧ p.progress = form.progress)
    ∧ (∀ editId old, editId ≠ "" →
        data.projects.find? (fun p => p.id == editId) = some old →
        ∃ p, (submitProjectForm data editId form now newId).projects.find?
            (fun p => p.id == editId) = some p ∧ p.progress = form.progress)
    ∧ (∀ n : ℤ, form.progress = JSNumber.ofInt n →
        (form.progress = JSNumber.ofInt (clamp n 0 100) ↔ 0 ≤ n ∧ n ≤ 100)) := by
  refine ⟨⟨_, rfl, rfl⟩, ?_, ?_⟩
  · intro editId old hid hfind
    refine ⟨mergeProject old form now, ?_, rfl⟩
    unfold submitProjectForm
    rw [if_pos hid]
    simp only
    rw [find?_updateFirst _ _ (fun x hx => by simpa [mergeProject] using hx), hfind]
    rfl
  · intro n hn
    rw [hn]
    constructor
    · intro h
      have h2 := JSNumber.ofInt_injective h
      unfold clamp at h2
      constructor
      · rw [h2]; exact le_max_left _ _
      · rw [h2]; exact max_le (by norm_num) (min_le_right _ _)
    · rintro ⟨h0, h1⟩
      have : clamp n 0 100 = n := by
        unfold clamp
        rw [min_eq_left h1, max_eq_right h0]
      rw [this]

/-- C2 (amended), applied to the seeded document: input 150 on create and on edit. -/
theorem submitProjectForm_stores_input_progress_witness :
    (∃ p, (submitProjectForm seedDocument "" ⟨"Thesis", "Write-up", "", JSNumber.ofInt 150⟩
          "2024-02-01T00:00:00.000Z" "proj-1706745600000-b2c4d6e8f").projects
        = seedDocument.projects ++ [p] ∧ p.progress = JSNumber.ofInt 150)
    ∧ (∃ p, (submitProjectForm seedDocument "proj-1704931200000-k3x9q2m1z"
          ⟨"Thesis", "Write-up", "", JSNumber.ofInt 150⟩
          "2024-02-01T00:00:00.000Z" "proj-1706745600000-b2c4d6e8f").projects.find?
            (fun p => p.id == "proj-1704931200000-k3x9q2m1z") = some p
        ∧ p.progress = JSNumber.ofInt 150)
    ∧ ((JSNumber.ofInt 40 = JSNumber.ofInt (clamp 40 0 100)) ↔ (0:ℤ) ≤ 40 ∧ (40:ℤ) ≤ 100) :=
  ⟨(submitProjectForm_stores_input_progress seedDocument
      ⟨"Thesis", "Write-up", "", JSNumber.ofInt 150⟩ "2024-02-01T00:00:00.000Z"
      "proj-1706745600000-b2c4d6e8f").1,
   (submitProjectForm_stores_input_progress seedDocument
      ⟨"Thesis", "Write-up", "", JSNumber.ofInt 150⟩ "2024-02-01T00:00:00.000Z"
      "proj-1706745600000-b2c4d6e8f").2.1 "proj-1704931200000-k3x9q2m1z"
      _ (by decide) rfl,
   (submitProjectForm_stores_input_progress seedDocument
      ⟨"Thesis", "Write-up", "", JSNumber.ofInt 40⟩ "2024-02-01T00:00:00.000Z"
      "proj-1706745600000-b2c4d6e8f").2.2 40 rfl⟩

/-! ## C3: fragments the router does not know -/

/-- C3 (evaluation at the failing input): for the fragment `#/settings`, which is
none of the known routes, `handleRouting` takes `active` off the dashboard, gives
it to no view and calls no renderer; the Dashboard is not selected. -/
theorem handleRouting_unknown_fragment_selects_nothing :
    handleRouting sampleDateValue seedDocument ⟨"#/settings", none, [View.dashboard]⟩
      = (⟨"#/settings", none, []⟩, none)
    ∧ (handleRouting sampleDateValue seedDocument ⟨"#/settings", none, [View.dashboard]⟩).1.active
      ≠ [View.dashboard] := by
  have h : handleRouting sampleDateValue seedDocument ⟨"#/settings", none, [View.dashboard]⟩
      = (⟨"#/settings", none, []⟩, none) :=
    handleRouting_unrecognized sampleDateValue seedDocument
      ⟨"#/settings", none, [View.dashboard]⟩
      (by decide) (by decide) (by decide) (by decide) (by decide)
  exact ⟨h, by rw [h]; decide⟩

/-! ## C9: the detail route of a missing project -/

/-- C9: when no project of the document has the id, `renderProjectDetail(id)` renders
nothing and navigates to `#/projects`; `handleRouting` maps that fragment to the
Project List; and a `handleRouting` run on a detail fragment carrying the id leaves
the fragment `#/projects`, from which the next run shows the Project List. -/
theorem renderProjectDetail_missing_redirects (dateValue : String → Option ℤ) (data : Document)
    (id : String) (h : ∀ p ∈ data.projects, p.id ≠ id) :
    renderProjectDetail dateValue data (some id) = .redirect "#/projects"
    ∧ (∀ b : Browser, handleRouting dateValue data (navigateTo b "#/projects")
        = ({ b with hash := "#/projects", active := [View.projects] },
           some (.projectsList data.projects)))
    ∧ (∀ b : Browser, startsWith b.hash "#/project/" = true →
        (split b.hash '/').get? 2 = some id →
        (handleRouting dateValue data b).2 = some (.projectDetail (.redirect "#/projects"))
        ∧ (handleRouting dateValue data b).1.hash = "#/projects"
        ∧ (handleRouting dateValue data (handleRouting dateValue data b).1).1.active
            = [View.projects]
        ∧ (handleRouting dateValue data (handleRouting dateValue data b).1).2
            = some (.projectsList data.projects)) := by
  have hr : renderProjectDetail dateValue data (some id) = .redirect "#/projects" := by
    unfold renderProjectDetail
    rw [find?_id_none data id h]
  refine ⟨hr, ?_, ?_⟩
  · intro b
    rw [handleRouting_projects dateValue data (navigateTo b "#/projects") rfl]
    rfl
  · intro b hs hid
    have h0 : b.hash ≠ "" := by
      intro e; rw [e] at hs; exact absurd hs (by decide)
    have h1 : b.hash ≠ "#/" := by
      intro e; rw [e] at hs; exact absurd hs (by decide)
    have h2 : b.hash ≠ "#/projects" := by
      intro e; rw [e] at hs; exact absurd hs (by decide)
    have step : handleRouting dateValue data b
        = (navigateTo { b with currentProjectId := some id, active := [View.projectDetail] }
            "#/projects", some (.projectDetail (.redirect "#/projects"))) := by
      have hid2 : (split b.hash '/')[2]? = some id := by simpa using hid
      simp [handleRouting, h0, h1, h2, hs, hid2, hr]
    rw [step]
    refine ⟨rfl, rfl, ?_, ?_⟩
    · rw [handleRouting_projects dateValue data _ rfl]
    · rw [handleRouting_projects dateValue data _ rfl]
      rfl

/-- C9 on the seeded document: the fragment `#/project/does-not-exist`. -/
theorem renderProjectDetail_missing_redirects_witness :
    (∀ p ∈ seedDocument.projects, p.id ≠ "does-not-exist")
    ∧ renderProjectDetail sampleDateValue seedDocument (some "does-not-exist")
        = .redirect "#/projects"
    ∧ (handleRouting sampleDateValue seedDocument
        (handleRouting sampleDateValue seedDocument
          ⟨"#/project/does-not-exist", none, [View.dashboard]⟩).1).1.active = [View.projects] :=
  ⟨by decide,
   (renderProjectDetail_missing_redirects sampleDateValue seedDocument "does-not-exist"
      (by decide)).1,
   ((renderProjectDetail_missing_redirects sampleDateValue seedDocument "does-not-exist"
      (by decide)).2.2 ⟨"#/project/does-not-exist", none, [View.dashboard]⟩
      (by decide) (by decide)).2.2.1⟩

/-! ## C10: the route table -/

/-- C10 (counterexample): for the project id `a/b` the fragment `#/project/a/b`
selects Project Detail but sets `currentProjectId` to `a`, the third piece of the
fragment split at `/`; and for the project id `a b` the fragment read back after
`navigateTo('#/project/a b')` is `#/project/a%20b`, so `currentProjectId` is set
to `a%20b`.  In neither case is it the id. -/
theorem handleRouting_id_not_captured :
    ((handleRouting sampleDateValue seedDocument
          ⟨"#/project/" ++ "a/b", none, []⟩).1.currentProjectId = some "a"
      ∧ (handleRouting sampleDateValue seedDocument
          ⟨"#/project/" ++ "a/b", none, []⟩).1.currentProjectId ≠ some "a/b")
    ∧ ((navigateTo ⟨"#/projects", none, [View.projects]⟩ ("#/project/" ++ "a b")).hash
          = "#/project/a%20b"
      ∧ (handleRouting sampleDateValue seedDocument
          (navigateTo ⟨"#/projects", none, [View.projects]⟩
            ("#/project/" ++ "a b"))).1.currentProjectId = some "a%20b"
      ∧ (handleRouting sampleDateValue seedDocument
          (navigateTo ⟨"#/projects", none, [View.projects]⟩
            ("#/project/" ++ "a b"))).1.currentProjectId ≠ some "a b") := by
  decide

/-- C10 (amended): on the fragment that `window.location.hash` returns, the empty
fragment and `#/` select the Dashboard, `#/projects` the Project List, `#/courses`
the Course List, and `#/project/<s>` selects Project Detail, sets
`currentProjectId` to the part of `<s>` before its first `/` (all of `<s>` when it
has none) and renders the detail of that id; in each case exactly one view is left
active, and the first three routes leave `currentProjectId` as it was.  After
`navigateTo('#/project/' + id)` the fragment is `#/project/` followed by the
percent-encoded id, so `currentProjectId` is exactly the id for every id that
contains no `/` and no character of the fragment percent-encode set. -/
theorem handleRouting_route_table (dateValue : String → Option ℤ) (data : Document)
    (b : Browser) :
    (b.hash = "" ∨ b.hash = "#/" →
        handleRouting dateValue data b
          = ({ b with active := [View.dashboard] }, some (.dashboard (renderDashboard data))))
    ∧ (b.hash = "#/projects" →
        handleRouting dateValue data b
          = ({ b with active := [View.projects] },
             some (.projectsList (renderProjectsList data))))
    ∧ (b.hash = "#/courses" →
        handleRouting dateValue data b
          = ({ b with active := [View.courses] },
             some (.coursesList (renderCoursesList data))))
    ∧ (∀ s : String, b.hash = "#/project/" ++ s →
        (handleRouting dateValue data b).1.active = [View.projectDetail]
        ∧ (handleRouting dateValue data b).1.currentProjectId = some (firstSegment s)
        ∧ (handleRouting dateValue data b).2
            = some (.projectDetail
                (renderProjectDetail dateValue data (some (firstSegment s)))))
    ∧ (∀ id : String, '/' ∉ id.data → b.hash = "#/project/" ++ id →
        (handleRouting dateValue data b).1.active = [View.projectDetail]
        ∧ (handleRouting dateValue data b).1.currentProjectId = some id
        ∧ (handleRouting dateValue data b).2
            = some (.projectDetail (renderProjectDetail dateValue data (some id))))
    ∧ (∀ id : String,
        (navigateTo b ("#/project/" ++ id)).hash = "#/project/" ++ percentEncode id)
    ∧ (∀ id : String, '/' ∉ id.data → (∀ c ∈ id.data, inFragmentEncodeSet c = false) →
        (handleRouting dateValue data (navigateTo b ("#/project/" ++ id))).1.active
            = [View.projectDetail]
        ∧ (handleRouting dateValue data
            (navigateTo b ("#/project/" ++ id))).1.currentProjectId = some id
        ∧ (handleRouting dateValue data (navigateTo b ("#/project/" ++ id))).2
            = some (.projectDetail (renderProjectDetail dateValue data (some id)))) := by
  refine ⟨?_, ?_, ?_, ?_, ?_, ?_, ?_⟩
  · rintro (h | h) <;> simp [handleRouting, h]
  · intro h
    exact handleRouting_projects dateValue data b h
  · intro h
    have hs : startsWith "#/courses" "#/project/" = false := by decide
    simp [handleRouting, h, hs]
  · intro s h
    exact handleRouting_projectHash dateValue data b s h
  · intro id hid h
    have hseg := firstSegment_no_slash id hid
    have hr := handleRouting_projectHash dateValue data b id h
    rw [hseg] at hr
    exact hr
  · intro id
    exact assignedHash_projectHash id
  · intro id hid hsafe
    have henc : percentEncode id = id := by
      unfold percentEncode
      rw [encodeFragment_safe id.data hsafe]
    have hhash : (navigateTo b ("#/project/" ++ id)).hash = "#/project/" ++ id := by
      show assignedHash ("#/project/" ++ id) = "#/project/" ++ id
      rw [assignedHash_projectHash, henc]
    have hseg := firstSegment_no_slash id hid
    have hr := handleRouting_projectHash dateValue data (navigateTo b ("#/project/" ++ id))
      id hhash
    rw [hseg] at hr
    exact hr

/-- C10 (amended) on the seeded document: the four fragments, the detail fragment
being that of the seeded project, read directly and after `navigateTo`; and the
fragment `#/project/a/b`, which captures `a`. -/
theorem handleRouting_route_table_witness :
    (handleRouting sampleDateValue seedDocument ⟨"", none, []⟩).1.active = [View.dashboard]
    ∧ (handleRouting sampleDateValue seedDocument ⟨"#/projects", none, []⟩).1.active
        = [View.projects]
    ∧ (handleRouting sampleDateValue seedDocument ⟨"#/courses", none, []⟩).1.active
        = [View.courses]
    ∧ (handleRouting sampleDateValue seedDocument
        ⟨"#/project/" ++ "proj-1704931200000-k3x9q2m1z", none, []⟩).1.currentProjectId
        = some "proj-1704931200000-k3x9q2m1z"
    ∧ (handleRouting sampleDateValue seedDocument
        ⟨"#/project/" ++ "a/b", none, []⟩).1.currentProjectId = some (firstSegment "a/b")
    ∧ (handleRouting sampleDateValue seedDocument
        (navigateTo ⟨"#/projects", none, [View.projects]⟩
          ("#/project/" ++ "proj-1704931200000-k3x9q2m1z"))).1.currentProjectId
        = some "proj-1704931200000-k3x9q2m1z" :=
  ⟨congrArg (fun r => r.1.active)
      ((handleRouting_route_table sampleDateValue seedDocument ⟨"", none, []⟩).1 (Or.inl rfl)),
   congrArg (fun r => r.1.active)
      ((handleRouting_route_table sampleDateValue seedDocument ⟨"#/projects", none, []⟩).2.1 rfl),
   congrArg (fun r => r.1.active)
      ((handleRouting_route_table sampleDateValue seedDocument ⟨"#/courses", none, []⟩).2.2.1 rfl),
   ((handleRouting_route_table sampleDateValue seedDocument
      ⟨"#/project/" ++ "proj-1704931200000-k3x9q2m1z", none, []⟩).2.2.2.2.1
      "proj-1704931200000-k3x9q2m1z" (by decide) rfl).2.1,
   ((handleRouting_route_table sampleDateValue seedDocument
      ⟨"#/project/" ++ "a/b", none, []⟩).2.2.2.1 "a/b" rfl).2.1,
   ((handleRouting_route_table sampleDateValue seedDocument
      ⟨"#/projects", none, [View.projects]⟩).2.2.2.2.2.2
      "proj-1704931200000-k3x9q2m1z" (by decide) (by decide)).2.1⟩

/-! ## C4: an import that does not succeed leaves the store alone -/

/-- C4 (counterexample): the uploaded text parses to an object whose `projects` is
the number 1 and whose `courses` is the string `x`.  It has no `projects` array and
no `courses` array, yet after confirmation the handler overwrites the store, which
held the empty document. -/
theorem importFile_saves_truthy_non_collections :
    tableJSON.parse "\x7b\"projects\":1,\"courses\":\"x\"\x7d"
      = some (.object [("projects", .number (JSNumber.ofInt 1)), ("courses", .string "x")])
    ∧ ¬ JSValue.hasArray
        (.object [("projects", .number (JSNumber.ofInt 1)), ("courses", .string "x")]) "projects"
    ∧ ¬ JSValue.hasArray
        (.object [("projects", .number (JSNumber.ofInt 1)), ("courses", .string "x")]) "courses"
    ∧ (importFile tableJSON (some "\x7b\"projects\":[],\"courses\":[]\x7d")
        (some "\x7b\"projects\":1,\"courses\":\"x\"\x7d") true).storage
      = some "\x7b\"projects\":1,\"courses\":\"x\"\x7d"
    ∧ (importFile tableJSON (some "\x7b\"projects\":[],\"courses\":[]\x7d")
        (some "\x7b\"projects\":1,\"courses\":\"x\"\x7d") true).storage
      ≠ some "\x7b\"projects\":[],\"courses\":[]\x7d" := by
  refine ⟨rfl, ?_, ?_, rfl, by decide⟩
  · rintro ⟨items, h⟩
    simp [JSValue.member, List.lookup] at h
  · rintro ⟨items, h⟩
    simp [JSValue.member, List.lookup] at h

/-- C4 (amended): the store after the import handler is the store before it if the
user declines the confirmation, or the uploaded text does not parse, or reading
`projects` or `courses` of the parsed value gives a falsy value (a missing
property, `null`, `false`, `0`, `NaN`, the empty string) or throws (the parsed
value is `null`).  In the remaining case, a confirmed upload whose parsed value has
a truthy `projects` and a truthy `courses`, arrays or not, the store is overwritten
with `JSON.stringify` of that value. -/
theorem importFile_keeps_storage_unless_truthy (J : JSON) (storage : Storage) (text : String)
    (confirmed : Bool) :
    ((confirmed = false ∨ J.parse text = none ∨
        ∃ D, J.parse text = some D ∧ (D.falsyMember "projects" ∨ D.falsyMember "courses")) →
      (importFile J storage (some text) confirmed).storage = storage)
    ∧ (∀ D, confirmed = true → J.parse text = some D →
        D.truthyMember "projects" → D.truthyMember "courses" →
        (importFile J storage (some text) confirmed).storage = some (J.stringify D)) := by
  constructor
  · intro h
    rcases importFile_storage_cases J storage text confirmed with hs | ⟨hc, D, hD, hp, hcs, _⟩
    · exact hs
    · rcases h with h | h | ⟨D2, hD2, h⟩
      · rw [h] at hc
        exact absurd hc (by decide)
      · rw [h] at hD
        exact Option.noConfusion hD
      · rw [hD2] at hD
        cases hD
        obtain ⟨x, hx, hxt⟩ := hp
        obtain ⟨y, hy, hyt⟩ := hcs
        rcases h with h | h
        · rw [h (some x) hx] at hxt
          exact absurd hxt (by decide)
        · rw [h (some y) hy] at hyt
          exact absurd hyt (by decide)
  · rintro D hc hD ⟨x, hx, hxt⟩ ⟨y, hy, hyt⟩
    subst hc
    simp [importFile, hD, hx, hxt, hy, hyt, saveData]

/-- C4 (amended) on the table, the store holding the empty document: the user
declines; the file is not JSON; it holds `null`; it holds an object without
`courses`; it holds an object whose `projects` is `null`; and it holds an object
with the truthy members 1 and `x`, which is saved. -/
theorem importFile_keeps_storage_unless_truthy_witness :
    (importFile tableJSON (some "\x7b\"projects\":[],\"courses\":[]\x7d")
        (some "\x7b\"projects\":[]\x7d") false).storage
      = some "\x7b\"projects\":[],\"courses\":[]\x7d"
    ∧ (importFile tableJSON (some "\x7b\"projects\":[],\"courses\":[]\x7d")
        (some "not json") true).storage
      = some "\x7b\"projects\":[],\"courses\":[]\x7d"
    ∧ (importFile tableJSON (some "\x7b\"projects\":[],\"courses\":[]\x7d")
        (some "null") true).storage
      = some "\x7b\"projects\":[],\"courses\":[]\x7d"
    ∧ (importFile tableJSON (some "\x7b\"projects\":[],\"courses\":[]\x7d")
        (some "\x7b\"projects\":[]\x7d") true).storage
      = some "\x7b\"projects\":[],\"courses\":[]\x7d"
    ∧ (importFile tableJSON (some "\x7b\"projects\":[],\"courses\":[]\x7d")
        (some "\x7b\"projects\":null,\"courses\":[]\x7d") true).storage
      = some "\x7b\"projects\":[],\"courses\":[]\x7d"
    ∧ (importFile tableJSON (some "\x7b\"projects\":[],\"courses\":[]\x7d")
        (some "\x7b\"projects\":1,\"courses\":\"x\"\x7d") true).storage
      = some "\x7b\"projects\":1,\"courses\":\"x\"\x7d" :=
  ⟨(importFile_keeps_storage_unless_truthy tableJSON _ _ false).1 (Or.inl rfl),
   (importFile_keeps_storage_unless_truthy tableJSON _ "not json" true).1 (Or.inr (Or.inl rfl)),
   (importFile_keeps_storage_unless_truthy tableJSON _ "null" true).1
     (Or.inr (Or.inr ⟨.null, rfl, Or.inl (fun _ e => Option.noConfusion e)⟩)),
   (importFile_keeps_storage_unless_truthy tableJSON _ "\x7b\"projects\":[]\x7d" true).1
     (Or.inr (Or.inr ⟨.object [("projects", .array [])], rfl,
       Or.inr (fun _ e => by cases e; rfl)⟩)),
   (importFile_keeps_storage_unless_truthy tableJSON _
      "\x7b\"projects\":null,\"courses\":[]\x7d" true).1
     (Or.inr (Or.inr ⟨.object [("projects", .null), ("courses", .array [])], rfl,
       Or.inl (fun _ e => by cases e; rfl)⟩)),
   (importFile_keeps_storage_unless_truthy tableJSON _
      "\x7b\"projects\":1,\"courses\":\"x\"\x7d" true).2
     (.object [("projects", .number (JSNumber.ofInt 1)), ("courses", .string "x")]) rfl rfl
     ⟨_, rfl, by decide⟩ ⟨_, rfl, by decide⟩⟩

/-! ## C5: a confirmed import of a well-formed document -/

/-- C5: when the uploaded text parses to a value `D` whose `projects` and `courses`
are arrays, and the user confirms, the handler overwrites the store with
`JSON.stringify(D)`, whatever the store held; so `loadData` returns `D` afterwards,
given that `JSON.parse` reads back what `JSON.stringify` wrote for `D` (and rejects
the empty text). -/
theorem importFile_replaces_store (J : JSON) (storage : Storage) (text : String) (D : JSValue)
    (hparse : J.parse text = some D)
    (hprojects : D.hasArray "projects") (hcourses : D.hasArray "courses")
    (hround : J.parse (J.stringify D) = some D) (hempty : J.parse "" = none) :
    (importFile J storage (some text) true).storage = some (J.stringify D)
    ∧ loadData J (importFile J storage (some text) true).storage = some D
    ∧ (importFile J storage (some text) true).alert = some .importedSuccessfully
    ∧ (importFile J storage (some text) true).rerouted = true := by
  rw [importFile_success J storage text D hparse hprojects hcourses]
  exact ⟨rfl, loadData_saved J D hround hempty, rfl, rfl⟩

/-- C5 on the table: the store holds some older text and the uploaded file is the
compact text of the empty document. -/
theorem importFile_replaces_store_witness :
    loadData tableJSON
        (importFile tableJSON (some "null")
          (some "\x7b\"projects\":[],\"courses\":[]\x7d") true).storage
      = some emptyDocument :=
  (importFile_replaces_store tableJSON (some "null")
    "\x7b\"projects\":[],\"courses\":[]\x7d" emptyDocument rfl ⟨[], rfl⟩ ⟨[], rfl⟩ rfl rfl).2.1

/-! ## C6: export followed by import -/

/-- C6: let `D` be the document `loadData` returns, with `projects` and `courses`
arrays.  Then `exportData` produces the text `JSON.stringify(D, null, 2)`, and
importing that text with confirmation leaves a store from which `loadData` returns
`D` again, given that `JSON.parse` reads back both serialisations of `D` (and
rejects the empty text). -/
theorem export_then_import_identity (J : JSON) (storage : Storage) (D : JSValue)
    (hload : loadData J storage = some D)
    (hprojects : D.hasArray "projects") (hcourses : D.hasArray "courses")
    (hindented : J.parse (J.stringifyIndented D) = some D)
    (hround : J.parse (J.stringify D) = some D) (hempty : J.parse "" = none) :
    exportData J storage = some (J.stringifyIndented D)
    ∧ loadData J (importFile J storage (exportData J storage) true).storage = some D := by
  have hexp : exportData J storage = some (J.stringifyIndented D) := by
    simp [exportData, hload]
  rw [hexp]
  refine ⟨rfl, ?_⟩
  rw [importFile_success J storage (J.stringifyIndented D) D hindented hprojects hcourses]
  exact loadData_saved J D hround hempty

/-- C6 on the table: the store holds the compact text of the empty document. -/
theorem export_then_import_identity_witness :
    exportData tableJSON (some "\x7b\"projects\":[],\"courses\":[]\x7d")
      = some "\x7b\n  \"projects\": [],\n  \"courses\": []\n\x7d"
    ∧ loadData tableJSON
        (importFile tableJSON (some "\x7b\"projects\":[],\"courses\":[]\x7d")
          (exportData tableJSON (some "\x7b\"projects\":[],\"courses\":[]\x7d"))
          true).storage
      = some emptyDocument :=
  export_then_import_identity tableJSON (some "\x7b\"projects\":[],\"courses\":[]\x7d")
    emptyDocument rfl ⟨[], rfl⟩ ⟨[], rfl⟩ rfl rfl rfl

/-! ## C7: the timeline of the project detail -/

/-- C7: for a project found under the id whose updates all carry valid timestamps,
`renderProjectDetail` renders a timeline that is a permutation of `project.updates`
in which every item is not older than each item after it; and when the stored
updates are three updates with timestamps `T1 < T2 < T3` in any order, the timeline
is the one with `T3`, then `T2`, then `T1`. -/
theorem renderProjectDetail_timeline_descending (dateValue : String → Option ℤ)
    (data : Document) (id : String) (project : Project)
    (hfind : data.projects.find? (fun p => some p.id == some id) = some project)
    (hvalid : ∀ u ∈ project.updates, (dateValue u.timestamp).isSome = true) :
    ∃ timeline, renderProjectDetail dateValue data (some id) = .page project timeline
      ∧ timeline.Perm project.updates
      ∧ timeline.Pairwise (notOlder dateValue)
      ∧ (∀ (u1 u2 u3 : Update) (T1 T2 T3 : ℤ),
          dateValue u1.timestamp = some T1 → dateValue u2.timestamp = some T2 →
          dateValue u3.timestamp = some T3 → T1 < T2 → T2 < T3 →
          project.updates.Perm [u1, u2, u3] → timeline = [u3, u2, u1]) := by
  by_cases hlen : project.updates.length = 0
  · have hnil : project.updates = [] := List.length_eq_zero.mp hlen
    refine ⟨[], ?_, ?_, List.Pairwise.nil, ?_⟩
    · unfold renderProjectDetail
      rw [hfind]
      simp [hlen]
    · rw [hnil]
    · intro u1 u2 u3 T1 T2 T3 _ _ _ _ _ hp
      rw [hnil] at hp
      exact absurd hp.length_eq (by simp)
  · refine ⟨sortUpdates dateValue project.updates, ?_, sortUpdates_perm _ _,
      sortUpdates_pairwise _ _ hvalid, ?_⟩
    · unfold renderProjectDetail
      rw [hfind]
      simp [hlen]
    · intro u1 u2 u3 T1 T2 T3 h1 h2 h3 h12 h23 hp
      exact sortUpdates_three dateValue _ u1 u2 u3 T1 T2 T3 h1 h2 h3 h12 h23 hp

/-- C7 on `timelineDocument`: the updates stored in the order 9 January, 10 January,
1 January are rendered in the order 10 January, 9 January, 1 January. -/
theorem renderProjectDetail_timeline_descending_witness :
    ∃ timeline,
      renderProjectDetail sampleDateValue timelineDocument (some "proj-1704931200000-k3x9q2m1z")
        = .page timelineProject timeline
      ∧ timeline.map (fun u => u.timestamp)
        = ["2024-01-10T00:00:00.000Z", "2024-01-09T00:00:00.000Z", "2024-01-01T00:00:00.000Z"] :=
  match renderProjectDetail_timeline_descending sampleDateValue timelineDocument
      "proj-1704931200000-k3x9q2m1z" timelineProject rfl (by decide) with
  | ⟨timeline, hpage, _, _, hthree⟩ =>
    ⟨timeline, hpage, by
      rw [hthree
        ⟨"upd-1704931200002-c6b4d2r6e", "RTL design", "2024-01-01T00:00:00.000Z", "", none⟩
        ⟨"upd-1704931200000-a8d2f0p4c", "Synthesis", "2024-01-09T00:00:00.000Z", "3 hours",
          some []⟩
        ⟨"upd-1704931200001-b7c3e1q5d", "Place and route", "2024-01-10T00:00:00.000Z", "",
          some []⟩
        1704067200000 1704758400000 1704844800000 rfl rfl rfl (by decide) (by decide)
        (by decide)]
      rfl⟩

/-! ## C8: the percentages of the course table -/

/-- The course table on two courses: 20 of 50 videos is 40 percent done and 60 left;
29 of 200 is 14 percent, as the double `29 / 200 * 100` lies just below 14.5. -/
theorem percentDone_examples :
    percentDone ⟨"c", "n", "p", "", JSNumber.ofInt 50, JSNumber.ofInt 20, "", ""⟩
      = JSNumber.ofInt 40
    ∧ percentLeft ⟨"c", "n", "p", "", JSNumber.ofInt 50, JSNumber.ofInt 20, "", ""⟩
      = JSNumber.ofInt 60
    ∧ percentDone ⟨"c", "n", "p", "", JSNumber.ofInt 200, JSNumber.ofInt 29, "", ""⟩
      = JSNumber.ofInt 14 := by
  decide

/-- C8: the course table has one row for each of the first ten courses, in order,
numbered from 1 and carrying `percentDone` and `percentLeft` of its course, where
`percentLeft = 100 - percentDone`.  For an integer `totalVideos = t > 0`
`percentDone` is `Math.round((completed / t) * 100)` in double arithmetic; for
integers `0 ≤ completed ≤ t` this is an integer `p` between 0 and 100 within
`1/2 + 2 ^ -45` of the exact `100 * completed / t`, and `percentLeft` is the integer
`100 - p`.  For `t ≤ 0`, in particular `t = 0`, `percentDone` is 0 and `percentLeft`
is 100 whatever `completed` is, no division taking place. -/
theorem percentDone_of_course_table (data : Document) :
    ((renderCoursesList data).length = min 10 data.courses.length
      ∧ ∀ (i : ℕ) (course : Course), i < 10 → data.courses[i]? = some course →
          (renderCoursesList data)[i]?
            = some ⟨i + 1, course, percentDone course, percentLeft course⟩)
    ∧ (∀ row ∈ renderCoursesList data, row.course ∈ data.courses
        ∧ row.percentDone = percentDone row.course
        ∧ row.percentLeft = percentLeft row.course)
    ∧ (∀ course : Course,
        percentLeft course = JSNumber.sub (JSNumber.ofInt 100) (percentDone course))
    ∧ (∀ (course : Course) (t : ℤ), course.totalVideos = JSNumber.ofInt t → 0 < t →
        percentDone course
          = JSNumber.mathRound (JSNumber.mul
              (JSNumber.div course.completed (JSNumber.ofInt t)) (JSNumber.ofInt 100)))
    ∧ (∀ (course : Course) (t : ℤ), course.totalVideos = JSNumber.ofInt t → t ≤ 0 →
        percentDone course = JSNumber.ofInt 0 ∧ percentLeft course = JSNumber.ofInt 100)
    ∧ (∀ (course : Course) (c t : ℤ), course.completed = JSNumber.ofInt c →
        course.totalVideos = JSNumber.ofInt t → 0 ≤ c → c ≤ t → 0 < t →
        ∃ p : ℤ, percentDone course = JSNumber.ofInt p
          ∧ percentLeft course = JSNumber.ofInt (100 - p)
          ∧ 0 ≤ p ∧ p ≤ 100
          ∧ |(p : ℚ) - 100 * c / t| ≤ 1 / 2 + 1 / 2 ^ 45) := by
  have hformula : ∀ (course : Course) (t : ℤ), course.totalVideos = JSNumber.ofInt t → 0 < t →
      percentDone course
        = JSNumber.mathRound (JSNumber.mul
            (JSNumber.div course.completed (JSNumber.ofInt t)) (JSNumber.ofInt 100)) := by
    intro course t ht hpos
    have hq : (0 : ℚ) < t := by exact_mod_cast hpos
    simp [percentDone, ht, JSNumber.gt, JSNumber.lt, JSNumber.ofInt, hq]
  refine ⟨⟨?_, ?_⟩, ?_, fun _ => rfl, hformula, ?_, ?_⟩
  · simp [renderCoursesList, List.length_take]
  · intro i course hi hget
    simp [renderCoursesList, List.getElem?_map, List.getElem?_enum, List.getElem?_take, hi,
      hget]
  · intro row hrow
    simp only [renderCoursesList, List.mem_map] at hrow
    obtain ⟨ic, hic, rfl⟩ := hrow
    refine ⟨?_, rfl, rfl⟩
    have h1 : ic.2 ∈ (data.courses.take 10) := by
      have := List.mem_map_of_mem Prod.snd hic
      simpa [List.enum_map_snd] using this
    exact List.mem_of_mem_take h1
  · intro course t ht hle
    have hq : ¬ (0 : ℚ) < t := by
      have : (t : ℚ) ≤ 0 := by exact_mod_cast hle
      linarith
    have hdone : percentDone course = JSNumber.ofInt 0 := by
      simp [percentDone, ht, JSNumber.gt, JSNumber.lt, JSNumber.ofInt, hq]
    refine ⟨hdone, ?_⟩
    unfold percentLeft
    rw [hdone]
    decide
  · intro course c t hc ht h0 hct hpos
    obtain ⟨p, hp, hp0, hp1, hacc⟩ := JSNumber.percent_accuracy c t h0 hct hpos
    have hdone : percentDone course = JSNumber.ofInt p := by
      rw [hformula course t ht hpos, hc, hp]
    refine ⟨p, hdone, ?_, hp0, hp1, hacc⟩
    unfold percentLeft
    rw [hdone, JSNumber.sub_hundred_exact p hp0 hp1]

/-- C8 on the seeded document: the table has one row; a course with
`totalVideos = 0` and `completed = 7` shows 0 and 100; and the seeded course, 20 of
50 videos, shows 40 and 60. -/
theorem percentDone_of_course_table_witness :
    (renderCoursesList seedDocument).length = 1
    ∧ (percentDone ⟨"c", "n", "p", "", JSNumber.ofInt 0, JSNumber.ofInt 7, "", ""⟩
        = JSNumber.ofInt 0
      ∧ percentLeft ⟨"c", "n", "p", "", JSNumber.ofInt 0, JSNumber.ofInt 7, "", ""⟩
        = JSNumber.ofInt 100)
    ∧ (percentDone ⟨"c", "n", "p", "", JSNumber.ofInt 50, JSNumber.ofInt 20, "", ""⟩
        = JSNumber.ofInt 40
      ∧ percentLeft ⟨"c", "n", "p", "", JSNumber.ofInt 50, JSNumber.ofInt 20, "", ""⟩
        = JSNumber.ofInt 60) :=
  ⟨(percentDone_of_course_table seedDocument).1.1,
   (percentDone_of_course_table seedDocument).2.2.2.2.1
      ⟨"c", "n", "p", "", JSNumber.ofInt 0, JSNumber.ofInt 7, "", ""⟩ 0 rfl (le_refl 0),
   by
    obtain ⟨p, h1, h2, _, _, h5⟩ := (percentDone_of_course_table seedDocument).2.2.2.2.2
      ⟨"c", "n", "p", "", JSNumber.ofInt 50, JSNumber.ofInt 20, "", ""⟩ 20 50 rfl rfl
      (by decide) (by decide) (by decide)
    have hp : p = 40 := by
      have hval : (100 : ℚ) * ((20 : ℤ) : ℚ) / ((50 : ℤ) : ℚ) = 40 := by norm_num
      rw [hval] at h5
      have hb := abs_le.mp h5
      have hlo : ((39 : ℤ) : ℚ) < (p : ℚ) := by
        have : (1 : ℚ) / 2 ^ 45 < 1 / 2 := by norm_num
        push_cast
        linarith [hb.1]
      have hhi : (p : ℚ) < ((41 : ℤ) : ℚ) := by
        have : (1 : ℚ) / 2 ^ 45 < 1 / 2 := by norm_num
        push_cast
        linarith [hb.2]
      have hlo2 : (39 : ℤ) < p := by exact_mod_cast hlo
      have hhi2 : p < (41 : ℤ) := by exact_mod_cast hhi
      omega
    subst hp
    exact ⟨h1, h2⟩⟩

/-! ## C11: editing an update keeps its attachments -/

/-- C11: in edit mode (the hidden id field is not empty), for an update found under
that id in the active project, with existing attachments `E` (the empty list when
the update has none), and pending files converted to `N`, the handler saves a
document in which the active project holds, at the same position, the update with
`attachments = E ++ N`, the same `id`, and `text`, `timestamp` (the ISO string of
the form's date) and `timeSpent` from the form; the other updates are unchanged. -/
theorem submitUpdateForm_edit_appends (readAsDataURL : File → Option String)
    (toISOString : String → Option String) (data : Document) (projectId : String)
    (pendingFiles : List File) (editId : String) (form : UpdateForm) (now newId : String)
    (project : Project) (update : Update) (N : List Attachment) (timestamp : String)
    (hid : editId ≠ "")
    (hproject : data.projects.find? (fun p => some p.id == some projectId) = some project)
    (hupdate : project.updates.find? (fun u => u.id == editId) = some update)
    (hN : filesToBase64 readAsDataURL pendingFiles = some N)
    (hts : toISOString form.timestamp = some timestamp) :
    ∃ after project2 pre post edited,
      submitUpdateForm readAsDataURL toISOString data (some projectId) pendingFiles editId
          form now newId = some after
      ∧ after.projects.find? (fun p => some p.id == some projectId) = some project2
      ∧ project.updates = pre ++ update :: post
      ∧ (∀ u ∈ pre, u.id ≠ editId)
      ∧ project2.updates = pre ++ edited :: post
      ∧ edited.attachments = some (update.attachments.getD [] ++ N)
      ∧ edited.id = update.id
      ∧ edited.text = form.text ∧ edited.timestamp = timestamp
      ∧ edited.timeSpent = form.timeSpent := by
  obtain ⟨pre, post, h1, h2, h3⟩ :=
    updateFirst_split (fun u => u.id == editId)
      (fun u => mergeUpdate u form timestamp N) project.updates update hupdate
  refine ⟨{ data with
      projects := updateFirst (fun p => some p.id == some projectId)
        (fun project =>
          { project with
            updates :=
              if editId ≠ "" then
                updateFirst (fun u => u.id == editId)
                  (fun u => mergeUpdate u form timestamp N) project.updates
              else
                project.updates ++
                  [{ id := newId
                     text := form.text
                     timestamp := timestamp
                     timeSpent := form.timeSpent
                     attachments := some N }]
            updatedAt := now })
        data.projects },
    { project with
      updates := updateFirst (fun u => u.id == editId)
        (fun u => mergeUpdate u form timestamp N) project.updates
      updatedAt := now },
    pre, post, mergeUpdate update form timestamp N, ?_, ?_, h1, ?_, h3,
    rfl, rfl, rfl, rfl, rfl⟩
  · unfold submitUpdateForm
    rw [hN, hts, hproject]
  · simp only
    rw [find?_updateFirst _ _ (fun x hx => by simpa using hx), hproject]
    simp [hid]
  · intro u hu
    simpa using h2 u hu

/-- C11 on `attachmentDocument`: the update that carries `plot.png` is edited with
the pending file `notes.txt`; afterwards it carries `plot.png` followed by
`notes.txt`. -/
theorem submitUpdateForm_edit_appends_witness :
    ∃ after project2 pre post edited,
      submitUpdateForm sampleReadAsDataURL sampleToISOString attachmentDocument
          (some "proj-1704931200000-k3x9q2m1z") [⟨"notes.txt", "text/plain", 2, [104, 105]⟩]
          "upd-1704931200000-a8d2f0p4c" ⟨"Synthesis done", "2024-01-10T00:00", "4 hours"⟩
          "2024-02-01T00:00:00.000Z" "upd-1706745600000-d5a3c1s7f" = some after
      ∧ after.projects.find? (fun p => some p.id == some "proj-1704931200000-k3x9q2m1z")
          = some project2
      ∧ project2.updates = pre ++ edited :: post
      ∧ edited.attachments
          = some ([⟨"plot.png", "image/png", 4, "data:image/png;base64,iVBORw=="⟩]
              ++ [⟨"notes.txt", "text/plain", 2, "data:text/plain;base64,aGk="⟩])
      ∧ edited.id = "upd-1704931200000-a8d2f0p4c" :=
  match submitUpdateForm_edit_appends sampleReadAsDataURL sampleToISOString attachmentDocument
      "proj-1704931200000-k3x9q2m1z" [⟨"notes.txt", "text/plain", 2, [104, 105]⟩]
      "upd-1704931200000-a8d2f0p4c" ⟨"Synthesis done", "2024-01-10T00:00", "4 hours"⟩
      "2024-02-01T00:00:00.000Z" "upd-1706745600000-d5a3c1s7f"
      (attachmentDocument.projects.headD timelineProject)
      ⟨"upd-1704931200000-a8d2f0p4c", "Synthesis", "2024-01-09T00:00:00.000Z", "3 hours",
        some [⟨"plot.png", "image/png", 4, "data:image/png;base64,iVBORw=="⟩]⟩
      [⟨"notes.txt", "text/plain", 2, "data:text/plain;base64,aGk="⟩]
      "2024-01-10T00:00:00.000Z" (by decide) rfl rfl rfl rfl with
  | ⟨after, project2, pre, post, edited, h1, h2, _, _, h5, h6, h7, _⟩ =>
    ⟨after, project2, pre, post, edited, h1, h2, h5, h6, h7⟩

/-! ## C12: the attachment pipeline -/

/-- C12: when every read succeeds, with results `datas` in the order of the files,
`filesToBase64` yields one record per file, in that order, carrying the name, type
and size of the file and its read result; when the read of some file fails, it
yields no list at all, and the update form handler that awaits it saves nothing. -/
theorem filesToBase64_all_or_nothing (readAsDataURL : File → Option String)
    (files : List File) :
    (∀ datas : List String, files.map readAsDataURL = datas.map some →
        filesToBase64 readAsDataURL files
          = some (List.zipWith
              (fun file base64 =>
                { name := file.name, type := file.type, size := file.size, data := base64 })
              files datas)
        ∧ (List.zipWith
              (fun file base64 =>
                ({ name := file.name, type := file.type, size := file.size, data := base64 }
                  : Attachment))
              files datas).length = files.length)
    ∧ ((∃ file ∈ files, readAsDataURL file = none) →
        filesToBase64 readAsDataURL files = none
        ∧ ∀ toISOString data currentProjectId editId form now newId,
            submitUpdateForm readAsDataURL toISOString data currentProjectId files editId form
              now newId = none) := by
  constructor
  · intro datas h
    constructor
    · unfold filesToBase64
      rw [filesToBase64Loop_success readAsDataURL [] files datas h]
      simp
    · have hlen : files.length = datas.length := by
        have := congrArg List.length h
        simpa using this
      simp [List.length_zipWith, hlen]
  · intro h
    have hnone : filesToBase64 readAsDataURL files = none :=
      filesToBase64Loop_failure readAsDataURL [] files h
    refine ⟨hnone, ?_⟩
    intro toISOString data currentProjectId editId form now newId
    unfold submitUpdateForm
    rw [hnone]

/-- C12 on two readable files, and on the same two followed by one that fails to
read. -/
theorem filesToBase64_all_or_nothing_witness :
    filesToBase64 sampleReadAsDataURL
        [⟨"plot.png", "image/png", 4, [137, 80, 78, 71]⟩, ⟨"notes.txt", "text/plain", 2, [104, 105]⟩]
      = some [⟨"plot.png", "image/png", 4, "data:image/png;base64,iVBORw=="⟩,
              ⟨"notes.txt", "text/plain", 2, "data:text/plain;base64,aGk="⟩]
    ∧ filesToBase64 sampleReadAsDataURL
        [⟨"plot.png", "image/png", 4, [137, 80, 78, 71]⟩, ⟨"notes.txt", "text/plain", 2, [104, 105]⟩,
         ⟨"broken.pdf", "application/pdf", 9, []⟩] = none
    ∧ submitUpdateForm sampleReadAsDataURL sampleToISOString attachmentDocument
        (some "proj-1704931200000-k3x9q2m1z")
        [⟨"plot.png", "image/png", 4, [137, 80, 78, 71]⟩, ⟨"notes.txt", "text/plain", 2, [104, 105]⟩,
         ⟨"broken.pdf", "application/pdf", 9, []⟩]
        "" ⟨"Sign-off", "2024-01-11T00:00", ""⟩ "2024-02-01T00:00:00.000Z"
        "upd-1706745600000-d5a3c1s7f" = none :=
  ⟨((filesToBase64_all_or_nothing sampleReadAsDataURL
      [⟨"plot.png", "image/png", 4, [137, 80, 78, 71]⟩,
       ⟨"notes.txt", "text/plain", 2, [104, 105]⟩]).1
      ["data:image/png;base64,iVBORw==", "data:text/plain;base64,aGk="] rfl).1,
   ((filesToBase64_all_or_nothing sampleReadAsDataURL
      [⟨"plot.png", "image/png", 4, [137, 80, 78, 71]⟩, ⟨"notes.txt", "text/plain", 2, [104, 105]⟩,
       ⟨"broken.pdf", "application/pdf", 9, []⟩]).2
      ⟨⟨"broken.pdf", "application/pdf", 9, []⟩, by decide, rfl⟩).1,
   ((filesToBase64_all_or_nothing sampleReadAsDataURL
      [⟨"plot.png", "image/png", 4, [137, 80, 78, 71]⟩, ⟨"notes.txt", "text/plain", 2, [104, 105]⟩,
       ⟨"broken.pdf", "application/pdf", 9, []⟩]).2
      ⟨⟨"broken.pdf", "application/pdf", 9, []⟩, by decide, rfl⟩).2 _ _ _ _ _ _ _⟩

/-! ## C13: editing a project -/

/-- C13: an edit (the hidden id field is not empty) of a project found under that
id replaces, at the same position, that project by one with the same `id`,
`createdAt` and `updates` and with `name`, `description`, `futureWork`, `progress`
and `updatedAt` taken from the submission; the projects before and after it and all
courses are unchanged. -/
theorem submitProjectForm_edit_merges (data : Document) (editId : String) (form : ProjectForm)
    (now newId : String) (old : Project) (hid : editId ≠ "")
    (hfind : data.projects.find? (fun p => p.id == editId) = some old) :
    ∃ pre post edited,
      data.projects = pre ++ old :: post
      ∧ (∀ p ∈ pre, p.id ≠ editId)
      ∧ (submitProjectForm data editId form now newId).projects = pre ++ edited :: post
      ∧ (submitProjectForm data editId form now newId).courses = data.courses
      ∧ edited.id = old.id ∧ edited.createdAt = old.createdAt ∧ edited.updates = old.updates
      ∧ edited.name = form.name ∧ edited.description = form.description
      ∧ edited.futureWork = form.futureWork ∧ edited.progress = form.progress
      ∧ edited.updatedAt = now := by
  obtain ⟨pre, post, h1, h2, h3⟩ :=
    updateFirst_split (fun p => p.id == editId) (fun p => mergeProject p form now)
      data.projects old hfind
  refine ⟨pre, post, mergeProject old form now, h1, ?_, ?_, ?_,
    rfl, rfl, rfl, rfl, rfl, rfl, rfl, rfl⟩
  · intro p hp
    simpa using h2 p hp
  · simp [submitProjectForm, hid, h3]
  · simp [submitProjectForm, hid]

/-- C13 on the seeded document: the seeded project is edited. -/
theorem submitProjectForm_edit_merges_witness :
    ∃ pre post edited,
      seedDocument.projects = pre ++ seedDocument.projects.headD timelineProject :: post
      ∧ (∀ p ∈ pre, p.id ≠ "proj-1704931200000-k3x9q2m1z")
      ∧ (submitProjectForm seedDocument "proj-1704931200000-k3x9q2m1z"
          ⟨"IC Design", "Flow", "Timing", JSNumber.ofInt 70⟩ "2024-02-01T00:00:00.000Z"
          "proj-1706745600000-b2c4d6e8f").projects = pre ++ edited :: post
      ∧ (submitProjectForm seedDocument "proj-1704931200000-k3x9q2m1z"
          ⟨"IC Design", "Flow", "Timing", JSNumber.ofInt 70⟩ "2024-02-01T00:00:00.000Z"
          "proj-1706745600000-b2c4d6e8f").courses = seedDocument.courses
      ∧ edited.id = "proj-1704931200000-k3x9q2m1z" ∧ edited.progress = JSNumber.ofInt 70 :=
  match submitProjectForm_edit_merges seedDocument "proj-1704931200000-k3x9q2m1z"
      ⟨"IC Design", "Flow", "Timing", JSNumber.ofInt 70⟩ "2024-02-01T00:00:00.000Z"
      "proj-1706745600000-b2c4d6e8f" (seedDocument.projects.headD timelineProject)
      (by decide) rfl with
  | ⟨pre, post, edited, h1, h2, h3, h4, h5, _, _, _, _, _, h6, _⟩ =>
    ⟨pre, post, edited, h1, h2, h3, h4, h5, h6⟩

/-! ## C14: deleting a course or an update -/

/-- C14: when the user declines, `deleteCourse` and `deleteUpdate` leave the document
as it is.  When the user confirms, `deleteCourse(id)` leaves the prior courses
without those of that id, in their order, and the projects unchanged; and
`deleteUpdate(id)`, when the active project exists, replaces that project, at its
position, by one whose updates are the prior updates without those of that id, all
other projects and all courses being unchanged. -/
theorem delete_after_confirmation_removes_target (data : Document) :
    (∀ courseId, deleteCourse data courseId false = data)
    ∧ (∀ currentProjectId updateId now,
        deleteUpdate data currentProjectId updateId false now = some data)
    ∧ (∀ courseId,
        (deleteCourse data courseId true).courses
            = data.courses.filter (fun c => c.id != courseId)
        ∧ (deleteCourse data courseId true).projects = data.projects)
    ∧ (∀ projectId updateId now project,
        data.projects.find? (fun p => some p.id == some projectId) = some project →
        ∃ pre post after,
          data.projects = pre ++ project :: post
          ∧ (∀ p ∈ pre, p.id ≠ projectId)
          ∧ deleteUpdate data (some projectId) updateId true now = some after
          ∧ after.projects
              = pre ++ { project with
                  updates := project.updates.filter (fun u => u.id != updateId)
                  updatedAt := now } :: post
          ∧ after.courses = data.courses) := by
  refine ⟨fun _ => rfl, fun _ _ _ => rfl, fun _ => ⟨rfl, rfl⟩, ?_⟩
  intro projectId updateId now project hfind
  obtain ⟨pre, post, h1, h2, h3⟩ :=
    updateFirst_split (fun p => some p.id == some projectId)
      (fun project =>
        { project with
          updates := project.updates.filter (fun u => u.id != updateId)
          updatedAt := now })
      data.projects project hfind
  refine ⟨pre, post,
    { data with
      projects := updateFirst (fun p => some p.id == some projectId)
        (fun project =>
          { project with
            updates := project.updates.filter (fun u => u.id != updateId)
            updatedAt := now })
        data.projects }, h1, ?_, ?_, h3, rfl⟩
  · intro p hp
    simpa using h2 p hp
  · unfold deleteUpdate
    rw [hfind]
    rfl

/-- C14 on `timelineDocument`: the update of 10 January is deleted after
confirmation, and the two others remain in their stored order. -/
theorem delete_after_confirmation_removes_target_witness :
    ∃ pre post after,
      timelineDocument.projects = pre ++ timelineProject :: post
      ∧ (∀ p ∈ pre, p.id ≠ "proj-1704931200000-k3x9q2m1z")
      ∧ deleteUpdate timelineDocument (some "proj-1704931200000-k3x9q2m1z")
          "upd-1704931200001-b7c3e1q5d" true "2024-02-01T00:00:00.000Z" = some after
      ∧ after.projects
          = pre ++ { timelineProject with
              updates := timelineProject.updates.filter
                (fun u => u.id != "upd-1704931200001-b7c3e1q5d")
              updatedAt := "2024-02-01T00:00:00.000Z" } :: post
      ∧ after.courses = timelineDocument.courses :=
  (delete_after_confirmation_removes_target timelineDocument).2.2.2
    "proj-1704931200000-k3x9q2m1z" "upd-1704931200001-b7c3e1q5d" "2024-02-01T00:00:00.000Z"
    timelineProject rfl

/-! ## C15: there is no project deletion -/

/-- C15 (counterexample): on the seeded document no handler other than the import
leaves the projects without the seeded project; and no way of choosing a handler
from a project id, the import included, removes the named project from every
document that holds it. -/
theorem project_deletion_not_provided :
    (¬ ∃ c : Command, c.isImport = false ∧ ∃ after, c.run seedDocument = some after
        ∧ after.projects
          = seedDocument.projects.filter (fun p => p.id != "proj-1704931200000-k3x9q2m1z"))
    ∧ (¬ ∃ delete : String → Command, ∀ (data : Document) (id : String),
        (∃ p ∈ data.projects, p.id = id) →
        ∃ after, (delete id).run data = some after
          ∧ after.projects = data.projects.filter (fun p => p.id != id)
          ∧ after.courses = data.courses) := by
  have hseed : ∀ c : Command, c.isImport = false → ∀ after, c.run seedDocument = some after →
      after.projects
        ≠ seedDocument.projects.filter (fun p => p.id != "proj-1704931200000-k3x9q2m1z") := by
    intro c hc after hrun hp
    obtain ⟨added, hids, _⟩ := Command.run_keeps_project_ids c seedDocument after hc hrun
    rw [hp] at hids
    have hlen := congrArg List.length hids
    simp [seedDocument, sampleData] at hlen
  constructor
  · rintro ⟨c, hc, after, hrun, hp⟩
    exact hseed c hc after hrun hp
  · rintro ⟨delete, hdel⟩
    obtain ⟨after, hrun, hp, _⟩ := hdel seedDocument "proj-1704931200000-k3x9q2m1z"
      ⟨seedDocument.projects.headD timelineProject, by decide, by decide⟩
    cases hc : (delete "proj-1704931200000-k3x9q2m1z").isImport with
    | false => exact hseed _ hc after hrun hp
    | true =>
      cases hd : delete "proj-1704931200000-k3x9q2m1z" with
      | importDocument imported =>
        rw [hd] at hrun
        simp only [Command.run, Option.some.injEq] at hrun
        obtain ⟨after2, hrun2, hp2, _⟩ := hdel
          { seedDocument with
            projects := { timelineProject with id := "proj-1706745600000-b2c4d6e8f" }
              :: seedDocument.projects }
          "proj-1704931200000-k3x9q2m1z"
          ⟨seedDocument.projects.headD timelineProject, by decide, by decide⟩
        rw [hd] at hrun2
        simp only [Command.run, Option.some.injEq] at hrun2
        rw [← hrun2, hrun, hp] at hp2
        have hlen := congrArg List.length hp2
        simp [seedDocument, sampleData] at hlen
      | _ => rw [hd] at hc; simp [Command.isImport] at hc

/-- C15 (amended): the program has no project deletion.  After any handler that
writes the store, other than the import, every project of the prior document is
still in the document under its id: the project ids are the prior ones in the same
order, followed by at most one new id, and no fewer projects remain. -/
theorem handlers_keep_every_project (c : Command) (data after : Document)
    (hc : c.isImport = false) (hrun : c.run data = some after) :
    (∃ added : List String,
        after.projects.map (fun p => p.id) = data.projects.map (fun p => p.id) ++ added
        ∧ added.length ≤ 1)
    ∧ (∀ p ∈ data.projects, ∃ q ∈ after.projects, q.id = p.id)
    ∧ data.projects.length ≤ after.projects.length := by
  obtain ⟨added, hids, hlen⟩ := Command.run_keeps_project_ids c data after hc hrun
  refine ⟨⟨added, hids, hlen⟩, ?_, ?_⟩
  · intro p hp
    have hmem : p.id ∈ after.projects.map (fun p => p.id) := by
      rw [hids]
      exact List.mem_append_left _ (List.mem_map_of_mem (fun p => p.id) hp)
    obtain ⟨q, hq, hqid⟩ := List.mem_map.mp hmem
    exact ⟨q, hq, hqid⟩
  · have h := congrArg List.length hids
    simp only [List.length_map, List.length_append] at h
    omega

/-- C15 (amended) on the seeded document: deleting the seeded course after
confirmation, and deleting the seeded update, keep the seeded project. -/
theorem handlers_keep_every_project_witness :
    (deleteCourse seedDocument "course-1704931200000-w7e5r1t6y" true).courses = []
    ∧ seedDocument.projects.length
        ≤ (deleteCourse seedDocument "course-1704931200000-w7e5r1t6y" true).projects.length
    ∧ (∀ p ∈ seedDocument.projects,
        ∃ q ∈ (deleteCourse seedDocument "course-1704931200000-w7e5r1t6y" true).projects,
          q.id = p.id) :=
  ⟨by decide,
   (handlers_keep_every_project (.deleteCourse "course-1704931200000-w7e5r1t6y" true)
      seedDocument (deleteCourse seedDocument "course-1704931200000-w7e5r1t6y" true)
      rfl rfl).2.2,
   (handlers_keep_every_project (.deleteCourse "course-1704931200000-w7e5r1t6y" true)
      seedDocument (deleteCourse seedDocument "course-1704931200000-w7e5r1t6y" true)
      rfl rfl).2.1⟩

/-! ## C16: the dashboard and the course table show the same percentage -/

/-- C16: for a course with integer `completed = c` and `totalVideos = t` where
`0 ≤ c ≤ t`, the percentage of the dashboard preview
(`Math.round((c / t) * 100) || 0`) equals the `percentDone` of the course table
(guarded by `t > 0`), and this value is an integer between 0 and 100. -/
theorem dashboardPercent_eq_percentDone (course : Course) (c t : ℤ)
    (hc : course.completed = JSNumber.ofInt c) (ht : course.totalVideos = JSNumber.ofInt t)
    (h0 : 0 ≤ c) (hct : c ≤ t) :
    dashboardPercent course = percentDone course
    ∧ ∃ p : ℤ, percentDone course = JSNumber.ofInt p ∧ 0 ≤ p ∧ p ≤ 100 := by
  rcases eq_or_lt_of_le (le_trans h0 hct) with ht0 | htpos
  · have hc0 : c = 0 := by omega
    subst hc0
    have hdone : percentDone course = JSNumber.ofInt 0 := by
      simp [percentDone, ht, ← ht0, JSNumber.gt, JSNumber.lt, JSNumber.ofInt]
    have hdash : dashboardPercent course = JSNumber.ofInt 0 := by
      simp [dashboardPercent, hc, ht, ← ht0, JSNumber.div, JSNumber.mul, JSNumber.mathRound,
        JSNumber.orElse, JSNumber.truthy, JSNumber.ofInt]
    exact ⟨by rw [hdone, hdash], 0, hdone, le_refl _, by norm_num⟩
  · obtain ⟨p, hp, hp0, hp1⟩ := JSNumber.percent_range c t h0 hct htpos
    have hq : (0 : ℚ) < t := by exact_mod_cast htpos
    have hdone : percentDone course = JSNumber.ofInt p := by
      rw [← hp]
      simp [percentDone, hc, ht, JSNumber.gt, JSNumber.lt, JSNumber.ofInt, hq]
    have hdash : dashboardPercent course = JSNumber.ofInt p := by
      unfold dashboardPercent
      rw [hc, ht, hp, JSNumber.orElse_ofInt_zero]
    exact ⟨by rw [hdone, hdash], p, hdone, hp0, hp1⟩

/-- C16 on the seeded course (20 of 50 videos) and on a course without videos. -/
theorem dashboardPercent_eq_percentDone_witness :
    (dashboardPercent ⟨"c", "n", "p", "", JSNumber.ofInt 50, JSNumber.ofInt 20, "", ""⟩
      = percentDone ⟨"c", "n", "p", "", JSNumber.ofInt 50, JSNumber.ofInt 20, "", ""⟩)
    ∧ (dashboardPercent ⟨"c", "n", "p", "", JSNumber.ofInt 0, JSNumber.ofInt 0, "", ""⟩
      = percentDone ⟨"c", "n", "p", "", JSNumber.ofInt 0, JSNumber.ofInt 0, "", ""⟩) :=
  ⟨(dashboardPercent_eq_percentDone
      ⟨"c", "n", "p", "", JSNumber.ofInt 50, JSNumber.ofInt 20, "", ""⟩ 20 50 rfl rfl
      (by decide) (by decide)).1,
   (dashboardPercent_eq_percentDone
      ⟨"c", "n", "p", "", JSNumber.ofInt 0, JSNumber.ofInt 0, "", ""⟩ 0 0 rfl rfl
      (by decide) (by decide)).1⟩

end ProjectHub
